import Mathlib

/-!
Verification development for the `ukgeolocate` library.

We shallowly embed the Python sources (`src/ukgeolocate/{postcode,address,
client,_db,exceptions}.py`) into Lean:

* strings are `List Char` (the sources only deal in Unicode code points;
  the character classes used by the code — whitespace, ASCII letters and
  digits, upper-casing — are modelled on the ASCII range, where the Python
  behaviour agrees with the model);
* Python floats produced by `difflib.SequenceMatcher.ratio` (`2*M/T`) are
  modelled as exact rationals `ℚ`; every comparison the code performs on
  them is modelled on the exact values;
* `difflib.SequenceMatcher` (stdlib, used by `address.similarity`) is
  embedded instruction-by-instruction: `__chain_b` (with the default
  `autojunk=True`, `isjunk=None`), `find_longest_match` (main loop plus the
  four extension loops), `get_matching_blocks` (queue worklist, sort,
  adjacent-block merge, sentinel) and `ratio`;
* the effectful code (`sqlite3` connections, file existence) is modelled by
  passing the outcomes of the external world explicitly: each low-level
  query is an `Except` value supplied as a parameter, file-existence checks
  are `Bool` parameters, and raised exceptions are `Except` results.
-/

/-- Decidable equality for `Except` values (raised-vs-returned outcomes),
used to state and evaluate concrete scenarios. -/
instance {ε α : Type} [DecidableEq ε] [DecidableEq α] : DecidableEq (Except ε α) := fun x y =>
  match x, y with
  | .error a, .error b =>
    if h : a = b then isTrue (congrArg Except.error h)
    else isFalse (fun hh => h (Except.error.inj hh))
  | .error _, .ok _ => isFalse (fun hh => Except.noConfusion hh)
  | .ok _, .error _ => isFalse (fun hh => Except.noConfusion hh)
  | .ok a, .ok b =>
    if h : a = b then isTrue (congrArg Except.ok h)
    else isFalse (fun hh => h (Except.ok.inj hh))

/-! ### Character classes (ASCII fragment of the Python semantics) -/

/-- Python whitespace (`str.strip`, `str.split`, and `\s` in `re`) on the
ASCII/Latin-1 range: TAB..CR (9–13), FS..US (28–31), space (32), NEL (133). -/
def isPySpace (c : Char) : Bool :=
  (9 ≤ c.toNat && c.toNat ≤ 13) || (28 ≤ c.toNat && c.toNat ≤ 32) || c.toNat == 133

/-- The character class `[A-Z]` under `re.IGNORECASE` (ASCII letters). -/
def isReLetter (c : Char) : Bool :=
  (65 ≤ c.toNat && c.toNat ≤ 90) || (97 ≤ c.toNat && c.toNat ≤ 122)

/-- The character class `\d` (ASCII digits). -/
def isReDigit (c : Char) : Bool :=
  48 ≤ c.toNat && c.toNat ≤ 57

/-- `str.upper` on one character (ASCII range: `a`–`z` map to `A`–`Z`,
everything else in the modelled fragment is fixed). -/
def pyUpperChar (c : Char) : Char :=
  if 97 ≤ c.toNat && c.toNat ≤ 122 then Char.ofNat (c.toNat - 32) else c

/-! ### Python string helpers -/

/-- `str.strip()` with no argument: drop leading and trailing whitespace. -/
def pyStrip (s : List Char) : List Char :=
  ((s.dropWhile isPySpace).reverse.dropWhile isPySpace).reverse

/-- Accumulator worker for `str.split()` (split on whitespace runs,
dropping empty fields); `acc` holds the current word reversed. -/
def pySplitAcc : List Char → List Char → List (List Char)
  | [], acc => if acc = [] then [] else [acc.reverse]
  | c :: cs, acc =>
    if isPySpace c then
      if acc = [] then pySplitAcc cs [] else acc.reverse :: pySplitAcc cs []
    else pySplitAcc cs (c :: acc)

/-- `str.split()` with no argument. -/
def pySplit (s : List Char) : List (List Char) := pySplitAcc s []

/-- `" ".join(words)`. -/
def joinSpace : List (List Char) → List Char
  | [] => []
  | [w] => w
  | w :: ws => w ++ ' ' :: joinSpace ws

/-- Digit-run parser used by `int(str)`: a nonempty ASCII digit sequence in
which `_` may appear only between two digits; `acc` is the value so far. -/
def pyIntDigits (acc : Nat) : List Char → Option Nat
  | [] => some acc
  | '_' :: c :: cs =>
    if isReDigit c then pyIntDigits (acc * 10 + (c.toNat - 48)) cs else none
  | c :: cs =>
    if isReDigit c then pyIntDigits (acc * 10 + (c.toNat - 48)) cs else none

/-- `int(s)` for a text value `s`: optional surrounding whitespace, optional
sign, then digits (with `_` separators). `none` models a raised
`ValueError`. -/
def pyInt (s : List Char) : Option Int :=
  match pyStrip s with
  | '+' :: c :: cs =>
    if isReDigit c then (pyIntDigits (c.toNat - 48) cs).map Int.ofNat else none
  | '-' :: c :: cs =>
    if isReDigit c then (pyIntDigits (c.toNat - 48) cs).map (fun n => -(n : Int)) else none
  | c :: cs =>
    if isReDigit c then (pyIntDigits (c.toNat - 48) cs).map Int.ofNat else none
  | [] => none

/-- Python `x or y` for an optional string `x` (both `None` and `""` are
falsy). -/
def pyOrStr (x : Option (List Char)) (y : List Char) : List Char :=
  match x with
  | some s => if s = [] then y else s
  | none => y

/-! ### `difflib.SequenceMatcher` (stdlib), as used by `address.similarity`

`similarity` constructs `SequenceMatcher(None, a, b)` and calls `.ratio()`,
so `isjunk` is `None` (hence `self.bjunk = ∅`) and `autojunk` is `True`. -/

/-- Number of occurrences of `c` in `b`. -/
def countIn (b : List Char) (c : Char) : Nat :=
  (b.filter (fun x => x = c)).length

/-- The "popular" test of `__chain_b`: with `autojunk` and `len(b) >= 200`,
an element is purged from `b2j` when it occurs more than `len(b)//100 + 1`
times. -/
def isPopular (b : List Char) (c : Char) : Bool :=
  200 ≤ b.length && b.length / 100 + 1 < countIn b c

/-- `self.b2j[c]`: the (increasing) list of positions of `c` in `b`, with
popular elements purged (`self.bjunk` is empty since `isjunk` is `None`). -/
def b2j (b : List Char) (c : Char) : List Nat :=
  if isPopular b c then []
  else (List.range b.length).filter (fun j => b.getD j ' ' = c)

/-- Inner loop of `find_longest_match` over `b2j.get(a[i], [])`.  State is
`(newj2len, (besti, bestj, bestsize))`; `j2len` is the previous row's
dictionary, modelled as a total function with the `.get(_, 0)` default.
In the source `besti` is assigned `i-k+1` with `k ≤ i+1` (a `j2len` entry
counts at most one step per preceding row), so the `Nat` expressions
`i + 1 - k`, `j + 1 - k` coincide with the Python values. -/
def flmInner (i blo bhi : Nat) (j2len : Nat → Nat) :
    List Nat → (Nat → Nat) → Nat × Nat × Nat → (Nat → Nat) × (Nat × Nat × Nat)
  | [], newj2len, best => (newj2len, best)
  | j :: js, newj2len, best =>
    if j < blo then flmInner i blo bhi j2len js newj2len best
    else if bhi ≤ j then (newj2len, best)
    else
      let k := (if j = 0 then 0 else j2len (j - 1)) + 1
      let newj2len1 := fun j2 => if j2 = j then k else newj2len j2
      if best.2.2 < k then flmInner i blo bhi j2len js newj2len1 (i + 1 - k, j + 1 - k, k)
      else flmInner i blo bhi j2len js newj2len1 best

/-- Outer loop of `find_longest_match` over `i in range(alo, ahi)`. -/
def flmOuter (a b : List Char) (blo bhi : Nat) :
    List Nat → (Nat → Nat) → Nat × Nat × Nat → Nat × Nat × Nat
  | [], _, best => best
  | i :: is2, j2len, best =>
    let step := flmInner i blo bhi j2len (b2j b (a.getD i ' ')) (fun _ => 0) best
    flmOuter a b blo bhi is2 step.1 step.2

/-- First extension loop: extend the best block backwards over non-junk
equal elements (`self.bjunk` is empty, so the junk test is vacuous).  The
loop decrements `besti` once per iteration and stops at `besti = alo ≥ 0`,
so structural recursion on `besti` realises it exactly: at `besti = 0` the
guard `besti > alo` is false and the loop exits. -/
def flmExtLo (a b : List Char) (alo blo : Nat) :
    Nat → Nat → Nat → Nat × Nat × Nat
  | 0, bestj, bestsize => (0, bestj, bestsize)
  | besti + 1, bestj, bestsize =>
    if alo < besti + 1 ∧ blo < bestj ∧ a.getD besti ' ' = b.getD (bestj - 1) ' ' then
      flmExtLo a b alo blo besti (bestj - 1) (bestsize + 1)
    else (besti + 1, bestj, bestsize)

/-- Second extension loop of `find_longest_match`: extend the best block
forwards over non-junk equal elements.  Each iteration increments
`bestsize` while `besti + bestsize < ahi`, so `ahi - (besti + bestsize)`
iterations suffice; `fuel` starts at that value, and when it is `0` the
guard is already false. -/
def flmExtHiAux (a b : List Char) (ahi bhi besti bestj : Nat) :
    Nat → Nat → Nat × Nat × Nat
  | 0, bestsize => (besti, bestj, bestsize)
  | fuel + 1, bestsize =>
    if besti + bestsize < ahi ∧ bestj + bestsize < bhi ∧
        a.getD (besti + bestsize) ' ' = b.getD (bestj + bestsize) ' ' then
      flmExtHiAux a b ahi bhi besti bestj fuel (bestsize + 1)
    else (besti, bestj, bestsize)

/-- Second extension loop, packaged on the best-triple state. -/
def flmExtHi (a b : List Char) (ahi bhi : Nat) :
    Nat × Nat × Nat → Nat × Nat × Nat
  | (besti, bestj, bestsize) =>
    flmExtHiAux a b ahi bhi besti bestj (ahi - (besti + bestsize)) bestsize

/-- `SequenceMatcher.find_longest_match(alo, ahi, blo, bhi)`.  The third and
fourth extension loops of the source extend over *junk* elements only; with
`isjunk = None` the junk set is empty, so those loops never execute and are
omitted (their guard `isbjunk(...)` is identically false). -/
def find_longest_match (a b : List Char) (alo ahi blo bhi : Nat) : Nat × Nat × Nat :=
  flmExtHi a b ahi bhi
    (match flmOuter a b blo bhi (List.range' alo (ahi - alo)) (fun _ => 0) (alo, blo, 0) with
     | (besti, bestj, bestsize) => flmExtLo a b alo blo besti bestj bestsize)

/-- Worklist loop of `get_matching_blocks`.  The Python list used as a LIFO
stack (`append`/`pop()`) is modelled with the most recent element at the
head; the two `append`s of one iteration therefore push in reverse order.
`fuel` bounds the number of iterations; `2*(la+lb)+1` iterations always
suffice (each iteration either discards a rectangle or splits it into
strictly narrower ones). -/
def gmbLoop (a b : List Char) :
    Nat → List (Nat × Nat × Nat × Nat) → List (Nat × Nat × Nat) → List (Nat × Nat × Nat)
  | 0, _, blocks => blocks
  | _ + 1, [], blocks => blocks
  | fuel + 1, (alo, ahi, blo, bhi) :: queue, blocks =>
    let x := find_longest_match a b alo ahi blo bhi
    if x.2.2 ≠ 0 then
      let queue1 := if alo < x.1 ∧ blo < x.2.1 then (alo, x.1, blo, x.2.1) :: queue else queue
      let queue2 :=
        if x.1 + x.2.2 < ahi ∧ x.2.1 + x.2.2 < bhi then
          (x.1 + x.2.2, ahi, x.2.1 + x.2.2, bhi) :: queue1
        else queue1
      gmbLoop a b fuel queue2 (x :: blocks)
    else gmbLoop a b fuel queue blocks

/-- Lexicographic `<` on triples, as used by Python's `list.sort()` on
3-tuples of ints. -/
def tripleLt (x y : Nat × Nat × Nat) : Bool :=
  x.1 < y.1 || (x.1 = y.1 && (x.2.1 < y.2.1 || (x.2.1 = y.2.1 && x.2.2 < y.2.2)))

/-- The collapse-adjacent-blocks pass of `get_matching_blocks`; state is the
pending block `(i1, j1, k1)`. -/
def mergeAdjacent : Nat × Nat × Nat → List (Nat × Nat × Nat) → List (Nat × Nat × Nat)
  | (i1, j1, k1), [] => if k1 ≠ 0 then [(i1, j1, k1)] else []
  | (i1, j1, k1), (i2, j2, k2) :: rest =>
    if i1 + k1 = i2 ∧ j1 + k1 = j2 then mergeAdjacent (i1, j1, k1 + k2) rest
    else if k1 ≠ 0 then (i1, j1, k1) :: mergeAdjacent (i2, j2, k2) rest
    else mergeAdjacent (i2, j2, k2) rest

/-- Stable insertion into a sorted block list: `x` (earlier in the unsorted
input) goes before the first element not `tripleLt`-below it. -/
def insertBlock (x : Nat × Nat × Nat) : List (Nat × Nat × Nat) → List (Nat × Nat × Nat)
  | [] => [x]
  | y :: ys => if tripleLt y x then y :: insertBlock x ys else x :: y :: ys

/-- Stable sort of the matching blocks (`matching_blocks.sort()`; Python's
sort is stable, and a stable sort under a total comparator is unique, so
insertion sort computes the same list). -/
def sortBlocks : List (Nat × Nat × Nat) → List (Nat × Nat × Nat)
  | [] => []
  | x :: xs => insertBlock x (sortBlocks xs)

/-- `SequenceMatcher.get_matching_blocks()`: worklist, sort, merge of
adjacent blocks, and the `(la, lb, 0)` sentinel. -/
def get_matching_blocks (a b : List Char) : List (Nat × Nat × Nat) :=
  let raw := gmbLoop a b (2 * (a.length + b.length) + 1) [(0, a.length, 0, b.length)] []
  mergeAdjacent (0, 0, 0) (sortBlocks raw) ++ [(a.length, b.length, 0)]

/-- Total size `M` of the matching blocks. -/
def sumSizes (blocks : List (Nat × Nat × Nat)) : Nat :=
  (blocks.map (fun x => x.2.2)).sum

/-- `SequenceMatcher.ratio()` = `_calculate_ratio(M, len(a)+len(b))`:
`2*M/T`, or `1.0` when both sequences are empty. -/
def ratio (a b : List Char) : ℚ :=
  if a.length + b.length ≠ 0 then
    mkRat (2 * sumSizes (get_matching_blocks a b)) (a.length + b.length)
  else 1

/-! ### `address.py` -/

/-- `address.normalise`: upper-case, strip commas, collapse whitespace
(`" ".join(raw.upper().replace(",", "").split())`). -/
def addrNormalise (raw : List Char) : List Char :=
  joinSpace (pySplit ((raw.map pyUpperChar).filter (fun c => c ≠ ',')))

/-- `address.similarity`: `SequenceMatcher(None, normalise(candidate),
normalise(query)).ratio()`. -/
def similarity (candidate query : List Char) : ℚ :=
  ratio (addrNormalise candidate) (addrNormalise query)

/-! ### `postcode.py` -/

/-- Matches the tail `\d[A-Z]{2}` of the postcode pattern against the whole
remaining input (the pattern is anchored by `$`). -/
def matchEnd : List Char → Bool
  | [d, x, y] => isReDigit d && isReLetter x && isReLetter y
  | _ => false

/-- Matches `\s?\d[A-Z]{2}$`. -/
def matchSpOpt (l : List Char) : Bool :=
  matchEnd l ||
    (match l with
     | c :: cs => isPySpace c && matchEnd cs
     | [] => false)

/-- Matches `[A-Z\d]?\s?\d[A-Z]{2}$` (classes under `re.IGNORECASE`). -/
def matchAlnumOpt (l : List Char) : Bool :=
  matchSpOpt l ||
    (match l with
     | c :: cs => (isReLetter c || isReDigit c) && matchSpOpt cs
     | [] => false)

/-- Matches `\d[A-Z\d]?\s?\d[A-Z]{2}$`. -/
def matchTail : List Char → Bool
  | d :: rest => isReDigit d && matchAlnumOpt rest
  | [] => false

/-- Whole-string match of `_UK_POSTCODE_RE`:
`^[A-Z]{1,2}\d[A-Z\d]?\s?\d[A-Z]{2}$` with `re.IGNORECASE`.  Alternation
order is irrelevant for the boolean "does it match" question, so the
recognizer enumerates the optional parts disjunctively. -/
def matchUKPostcode : List Char → Bool
  | c :: rest =>
    isReLetter c &&
      (matchTail rest ||
        (match rest with
         | c2 :: r2 => isReLetter c2 && matchTail r2
         | [] => false))
  | [] => false

/-- `postcode.validate`: `bool(_UK_POSTCODE_RE.match(raw.strip()))`. -/
def pcValidate (raw : List Char) : Bool :=
  matchUKPostcode (pyStrip raw)

/-- `postcode.normalise`.  On failure raises `PostcodeInvalid(raw)`, which
stores the *original* argument; the error payload is that argument.
Otherwise `stripped = raw.strip().upper().replace(" ", "")` (note: only the
space character `' '` is removed, not other whitespace) and the result is
`stripped[:-3] + " " + stripped[-3:]`. -/
def pcNormalise (raw : List Char) : Except (List Char) (List Char) :=
  if pcValidate raw then
    let stripped := ((pyStrip raw).map pyUpperChar).filter (fun c => c ≠ ' ')
    Except.ok (stripped.take (stripped.length - 3) ++ ' ' :: stripped.drop (stripped.length - 3))
  else Except.error raw

/-! ### `exceptions.py` -/

/-- The exception hierarchy.  `operational msg` is not a `UKGeolocateError`:
it models a raw `sqlite3.OperationalError` (message `msg`) escaping from
`_DatabasePool.execute` unchanged. -/
inductive UKError where
  | postcodeInvalid (postcode : List Char)
  | databaseNotFound (path db_name : List Char)
  | databaseInvalid (path detail : List Char)
  | noMatchFound (postcode address : List Char)
  | operational (msg : List Char)
deriving DecidableEq, Repr

/-- `str(exc)` for each error, per the messages in `exceptions.py`; for a
raw `sqlite3.OperationalError` it is the error's own message. -/
def strOfError : UKError → List Char
  | .postcodeInvalid p => "Invalid UK postcode: '".toList ++ p ++ "'".toList
  | .databaseNotFound path name => name ++ " database not found at: ".toList ++ path
  | .databaseInvalid path detail => "Invalid database at ".toList ++ path ++ ": ".toList ++ detail
  | .noMatchFound pc addr => "No match found for '".toList ++ addr ++ "' at '".toList ++ pc ++ "'".toList
  | .operational m => m

/-! ### `_db.py` -/

/-- `_DatabasePool`: a path, a diagnostic name, and an optional open
connection (the connection object itself is opaque). -/
structure DatabasePool where
  path : List Char
  name : List Char
  conn : Option Unit
deriving DecidableEq, Repr

/-- The world-supplied outcomes of one `execute` call: what `is_file()`
returns if `_open` runs, the result of `conn.execute` (`.error msg` is a
`sqlite3.OperationalError` carrying message `msg`), and what `is_file()`
returns if the `except` handler re-checks. -/
structure ExecWorld (ρ : Type) where
  existsAtOpen : Bool
  queryOutcome : Except (List Char) ρ
  existsAtRecheck : Bool
deriving Repr

/-- The `try conn.execute … except sqlite3.OperationalError` body of
`_DatabasePool.execute`: on an operational error, re-check the file; if it
is gone, `close()` (drop the connection) and raise `DatabaseNotFound`,
otherwise re-raise the original error unchanged. -/
def poolRun {ρ : Type} (p : DatabasePool) (w : ExecWorld ρ) :
    DatabasePool × Except UKError ρ :=
  match w.queryOutcome with
  | .ok rows => (p, .ok rows)
  | .error msg =>
    if w.existsAtRecheck then (p, .error (.operational msg))
    else (⟨p.path, p.name, none⟩, .error (.databaseNotFound p.path p.name))

/-- `_DatabasePool.execute`: `get_connection` (lazily `_open`, which raises
`DatabaseNotFound` if the file does not exist), then run the query. -/
def poolExecute {ρ : Type} (p : DatabasePool) (w : ExecWorld ρ) :
    DatabasePool × Except UKError ρ :=
  match p.conn with
  | none =>
    if w.existsAtOpen then poolRun ⟨p.path, p.name, some ()⟩ w
    else (p, .error (.databaseNotFound p.path p.name))
  | some _ => poolRun p w

/-- Lexicographic (code-point) `<` on strings, as used by Python `sorted`. -/
def strLt : List Char → List Char → Bool
  | [], [] => false
  | [], _ :: _ => true
  | _ :: _, [] => false
  | c :: cs, d :: ds => c.toNat < d.toNat || (c == d && strLt cs ds)

/-- `", ".join(ws)`. -/
def joinCommaSpace : List (List Char) → List Char
  | [] => []
  | [w] => w
  | w :: ws => w ++ ", ".toList ++ joinCommaSpace ws

/-- Deduplication (Python `set(expected)`): membership is all that matters,
since the missing-table set is sorted before being shown. -/
def dedupStrs : List (List Char) → List (List Char)
  | [] => []
  | x :: xs => if x ∈ xs then dedupStrs xs else x :: dedupStrs xs

/-- Stable insertion for `sorted(missing)` (code-point order). -/
def insertStr (x : List Char) : List (List Char) → List (List Char)
  | [] => [x]
  | y :: ys => if strLt y x then y :: insertStr x ys else x :: y :: ys

/-- `sorted(missing)`. -/
def sortStrs : List (List Char) → List (List Char)
  | [] => []
  | x :: xs => insertStr x (sortStrs xs)

/-- `_DatabasePool.validate_tables(expected)`: query the catalog, take the
set difference `set(expected) - actual`, and raise `DatabaseInvalid` naming
the sorted missing tables if any. -/
def validateTables (p : DatabasePool) (w : ExecWorld (List (List Char)))
    (expected : List (List Char)) : DatabasePool × Except UKError Unit :=
  match poolExecute p w with
  | (p1, .error e) => (p1, .error e)
  | (p1, .ok actual) =>
    let missing := (dedupStrs expected).filter (fun t => ¬ t ∈ actual)
    if missing ≠ [] then
      (p1, .error (.databaseInvalid p1.path
        ("missing tables: ".toList ++ joinCommaSpace (sortStrs missing))))
    else (p1, .ok ())

/-! ### `client.py` -/

/-- Default `match_threshold` (`_DEFAULT_THRESHOLD = 0.45`; the float
literal denotes exactly 45/100 up to double rounding, modelled exactly). -/
def defaultThreshold : ℚ := mkRat 45 100

/-- One candidate row of the `epc_addresses` query in `_lookup_uprn`:
`SELECT uprn, address1, address2, address3, address … WHERE postcode = ?
AND uprn IS NOT NULL AND uprn != ''`.  The `uprn` column is text (non-null,
non-empty by the SQL filter, but possibly non-numeric); the four address
columns are nullable text. -/
structure EpcRow where
  uprn_str : List Char
  addr1 : Option (List Char)
  addr2 : Option (List Char)
  addr3 : Option (List Char)
  addr_full : Option (List Char)
deriving DecidableEq, Repr

/-- Python's binary `max` on scores: later argument wins only when strictly
greater. -/
def pyMax (x y : ℚ) : ℚ := if x < y then y else x

/-- The per-row score of `_lookup_uprn`:
`max(similarity(addr1 or "", q), …, similarity(addr_full or "", q))`. -/
def rowScore (norm_query : List Char) (r : EpcRow) : ℚ :=
  pyMax (pyMax (pyMax (similarity (pyOrStr r.addr1 []) norm_query)
                      (similarity (pyOrStr r.addr2 []) norm_query))
               (similarity (pyOrStr r.addr3 []) norm_query))
        (similarity (pyOrStr r.addr_full []) norm_query)

/-- The candidate-selection loop of `_lookup_uprn`.  `best` is
`None`/`(uprn_int, matched_address, score)`.  A row is examined only when
`row_score >= threshold and (best is None or row_score > best[2])`; then
`int(uprn_str)` failure skips the row (`continue`), otherwise `best` is
replaced and a perfect `row_score == 1.0` breaks out of the scan. -/
def lookupLoop (t : ℚ) (norm_query : List Char) :
    List EpcRow → Option (Int × List Char × ℚ) → Option (Int × List Char × ℚ)
  | [], best => best
  | r :: rs, best =>
    let row_score := rowScore norm_query r
    let accepts := decide (t ≤ row_score) && (match best with
      | none => true
      | some b => decide (b.2.2 < row_score))
    if accepts then
      match pyInt r.uprn_str with
      | none => lookupLoop t norm_query rs best
      | some uprn_int =>
        let best1 := some (uprn_int, pyOrStr r.addr_full (pyOrStr r.addr1 []), row_score)
        if row_score = 1 then best1 else lookupLoop t norm_query rs best1
    else lookupLoop t norm_query rs best

/-- `UKGeolocate._lookup_uprn` on the candidate rows returned by the
address-index query: normalise the address line, scan, and return the best
(`none` models the `NoMatchFound` raise). -/
def lookup_uprn (t : ℚ) (address_line : List Char) (rows : List EpcRow) :
    Option (Int × List Char × ℚ) :=
  lookupLoop t (addrNormalise address_line) rows none

/-- `models.LookupResult` (coordinates are reals in the datasets; modelled
as rationals). -/
structure LookupResult where
  uprn : Int
  matched_address : List Char
  match_score : ℚ
  easting : ℚ
  northing : ℚ
  latitude : ℚ
  longitude : ℚ
deriving DecidableEq, Repr

/-- `UKGeolocate.find_coordinates`: normalise the postcode (propagating
`PostcodeInvalid`), select the best UPRN among the candidate rows `rows`
(the rows the address-index query returns for the canonical postcode), then
join against the coordinate dataset `coords` (`None` = UPRN absent, which
raises `NoMatchFound`). -/
def find_coordinates (t : ℚ) (postcode_raw address_line : List Char)
    (rows : List EpcRow) (coords : Int → Option (ℚ × ℚ × ℚ × ℚ)) :
    Except UKError LookupResult :=
  match pcNormalise postcode_raw with
  | .error raw => .error (.postcodeInvalid raw)
  | .ok pc =>
    match lookupLoop t (addrNormalise address_line) rows none with
    | none => .error (.noMatchFound pc address_line)
    | some (uprn, matched_address, score) =>
      match coords uprn with
      | none => .error (.noMatchFound pc address_line)
      | some (x, y, lat, lon) => .ok ⟨uprn, matched_address, score, x, y, lat, lon⟩

/-- The engine: threshold and the two pools. -/
structure UKGeolocate where
  threshold : ℚ
  epc_pool : DatabasePool
  os_pool : DatabasePool
deriving DecidableEq, Repr

/-- `UKGeolocate.__init__`: build the two pools (EPC first, named "EPC";
then OS, named "OS Open UPRN") and eagerly run `_validate_databases`, which
validates the EPC schema first and the OS schema second.  The two
`ExecWorld`s supply the outcomes of the two catalog queries. -/
def mkUKGeolocate (epc_db os_db : List Char) (threshold : ℚ)
    (wEpc wOs : ExecWorld (List (List Char))) : Except UKError UKGeolocate :=
  let epc0 : DatabasePool := ⟨epc_db, "EPC".toList, none⟩
  let os0 : DatabasePool := ⟨os_db, "OS Open UPRN".toList, none⟩
  match validateTables epc0 wEpc ["epc_addresses".toList] with
  | (_, .error e) => .error e
  | (epc1, .ok _) =>
    match validateTables os0 wOs ["uprns".toList] with
    | (_, .error e) => .error e
    | (os1, .ok _) => .ok ⟨threshold, epc1, os1⟩

/-- The dict returned by `UKGeolocate.health_check`. -/
structure HealthStatus where
  healthy : Bool
  epc_db : List Char
  os_db : List Char
deriving DecidableEq, Repr

/-- `UKGeolocate.health_check`: start from `{"healthy": True, "epc_db":
"ok", "os_db": "ok"}`, validate each pool's schema in its own
`try/except Exception`, stringifying a failure into the corresponding field
and clearing `healthy`.  The function is total: no failure propagates. -/
def health_check (g : UKGeolocate) (wEpc wOs : ExecWorld (List (List Char))) :
    HealthStatus :=
  let s0 : HealthStatus := ⟨true, "ok".toList, "ok".toList⟩
  let s1 : HealthStatus :=
    match validateTables g.epc_pool wEpc ["epc_addresses".toList] with
    | (_, .error e) => ⟨false, strOfError e, s0.os_db⟩
    | (_, .ok _) => s0
  match validateTables g.os_pool wOs ["uprns".toList] with
  | (_, .error e) => ⟨false, s1.epc_db, strOfError e⟩
  | (_, .ok _) => s1

/-! ### Specification-side definitions (for refinement claims) -/

/-- Specification-side selection, following the claim's words: scan the
rows, keeping the highest-scoring row seen so far; a later row replaces the
current best only when its score is strictly higher, so on exact ties the
first-seen row is kept. -/
def specArgmaxFirst (f : EpcRow → ℚ) : List EpcRow → Option EpcRow
  | [] => none
  | r :: rs =>
    match specArgmaxFirst f rs with
    | none => some r
    | some r2 => if f r < f r2 then some r2 else some r

/-- Specification-side candidate selection: the first-seen row attaining
the maximum per-row score among the rows meeting or exceeding the
threshold. -/
def specSelect (t : ℚ) (q : List Char) (rows : List EpcRow) : Option EpcRow :=
  specArgmaxFirst (rowScore q) (rows.filter (fun r => decide (t ≤ rowScore q r)))

/-- A row with an empty or SQL-`NULL` address column (each column read
through the code's `col or ""`). -/
def hasEmptyAddrCol (r : EpcRow) : Bool :=
  (pyOrStr r.addr1 []).isEmpty || (pyOrStr r.addr2 []).isEmpty ||
    (pyOrStr r.addr3 []).isEmpty || (pyOrStr r.addr_full []).isEmpty

/-! ### Analysis auxiliary for `find_longest_match` -/

/-- Proof-side auxiliary (not part of the embedding): the value the
`j2len` dictionary holds at cell `(i, j)` after row `i` of the main loop of
`find_longest_match` on `(a, b) = (a, a)`, `alo = blo = 0`,
`ahi = bhi = a.length` — the length of the diagonal chain of matching
non-popular cells ending at `(i, j)`. -/
def chainLen (a : List Char) : Nat → Nat → Nat
  | i, j =>
    if j ∈ b2j a (a.getD i ' ') then
      match i, j with
      | 0, _ => 1
      | _ + 1, 0 => 1
      | i2 + 1, j2 + 1 => chainLen a i2 j2 + 1
    else 0

/-- Proof-side auxiliary (not part of the embedding): the admissible shapes
of the outward part of a UK postcode - the characters before the optional
whitespace and the final `digit letter letter` tail of the pattern. -/
def pcPrefixOK : List Char → Bool
  | [c1, c2] => isReLetter c1 && isReDigit c2
  | [c1, c2, c3] => isReLetter c1 &&
      ((isReLetter c2 && isReDigit c3) || (isReDigit c2 && (isReLetter c3 || isReDigit c3)))
  | [c1, c2, c3, c4] => isReLetter c1 && isReLetter c2 && isReDigit c3 &&
      (isReLetter c4 || isReDigit c4)
  | _ => false

/-! ## Theorems -/

set_option maxRecDepth 100000

/-- `Char.ofNat` round-trips on valid (BMP) code points. -/
theorem charToNat_ofNat (n : Nat) (h : n < 55296) : (Char.ofNat n).toNat = n := by
  have hv : n.isValidChar := Or.inl h
  unfold Char.ofNat
  rw [dif_pos hv]
  simp [Char.ofNatAux, Char.toNat, UInt32.toNat, UInt32.ofNatCore, BitVec.ofNat]

/-- `≤` on `Char` is `≤` on code points. -/
theorem char_le_iff (a c : Char) : a ≤ c ↔ a.toNat ≤ c.toNat := by
  rw [Char.le_def, UInt32.le_def]
  constructor
  · exact fun h => h
  · exact fun h => h

/-- Equality of `Char`s is equality of code points. -/
theorem char_eq_iff (a c : Char) : a = c ↔ a.toNat = c.toNat := by
  constructor
  · intro h; rw [h]
  · intro h
    rw [← Char.ofNat_toNat a, h, Char.ofNat_toNat]

/-- **C8.** For every string that does not match the UK postcode grammar,
`validate` returns `false` and `normalise` fails with `InvalidPostcode`
carrying the original input string unchanged (not a trimmed or uppercased
form). -/
theorem c8_invalid_postcode (raw : List Char)
    (h : matchUKPostcode (pyStrip raw) = false) :
    pcValidate raw = false ∧ pcNormalise raw = Except.error raw := by
  have hv : pcValidate raw = false := h
  refine ⟨hv, ?_⟩
  unfold pcNormalise
  rw [if_neg]
  simp [hv]

/-- Witness for C8 at the spec's Scenario C input `"INVALID"`. -/
theorem c8_invalid_postcode_witness :
    matchUKPostcode (pyStrip ("INVALID".toList)) = false ∧
      pcValidate ("INVALID".toList) = false ∧
      pcNormalise ("INVALID".toList) = Except.error ("INVALID".toList) :=
  ⟨by decide, c8_invalid_postcode ("INVALID".toList) (by decide)⟩

/-- **C5.** When a query raises a generic operational error, the handle
re-checks file existence: if the backing file is now missing it closes the
stale connection and fails with `DatasetNotFound` (carrying path and
dataset name); if the file still exists the original error propagates
unchanged — never swallowed, never reclassified as `DatasetNotFound`. -/
theorem c5_execute_staleness {ρ : Type} (p : DatabasePool) (w : ExecWorld ρ)
    (msg : List Char)
    (hrun : p.conn = some () ∨ w.existsAtOpen = true)
    (herr : w.queryOutcome = Except.error msg) :
    (w.existsAtRecheck = false →
      (poolExecute p w).2 = Except.error (.databaseNotFound p.path p.name) ∧
        (poolExecute p w).1.conn = none) ∧
    (w.existsAtRecheck = true →
      (poolExecute p w).2 = Except.error (.operational msg) ∧
        (poolExecute p w).1.conn ≠ none) := by
  have hrun1 : ∀ q : DatabasePool, q.conn ≠ none →
      (w.existsAtRecheck = false →
        (poolRun q w).2 = Except.error (.databaseNotFound q.path q.name) ∧
          (poolRun q w).1.conn = none) ∧
      (w.existsAtRecheck = true →
        (poolRun q w).2 = Except.error (.operational msg) ∧
          (poolRun q w).1.conn ≠ none) := by
    intro q hq
    unfold poolRun
    rw [herr]
    constructor
    · intro hre; rw [hre]; simp
    · intro hre; rw [hre]; simp [hq]
  rcases hp : p.conn with _ | u
  · rcases hrun with hconn | hopen
    · rw [hp] at hconn; cases hconn
    · have := hrun1 ⟨p.path, p.name, some ()⟩ (by simp)
      unfold poolExecute
      rw [hp, if_pos hopen]
      exact this
  · have := hrun1 p (by rw [hp]; simp)
    unfold poolExecute
    rw [hp]
    exact this

/-- Witness for C5: a pool with an open connection whose query fails with
message `"boom"`, under each of the two recheck outcomes. -/
theorem c5_execute_staleness_witness :
    ((⟨"p".toList, "EPC".toList, some ()⟩ : DatabasePool).conn = some () ∨
        (⟨true, Except.error ("boom".toList), false⟩ :
          ExecWorld (List (List Char))).existsAtOpen = true) ∧
      (⟨true, Except.error ("boom".toList), false⟩ :
          ExecWorld (List (List Char))).queryOutcome =
        Except.error ("boom".toList) ∧
      (poolExecute (⟨"p".toList, "EPC".toList, some ()⟩ : DatabasePool)
          (⟨true, Except.error ("boom".toList), false⟩ :
            ExecWorld (List (List Char)))).2 =
        Except.error (.databaseNotFound ("p".toList) ("EPC".toList)) := by
  refine ⟨Or.inl rfl, rfl, ?_⟩
  exact ((c5_execute_staleness _ _ ("boom".toList) (Or.inl rfl) rfl).1 rfl).1

/-- **C6.** Engine construction eagerly validates both datasets
(address-index first, then coordinate) and fails immediately with
`DatasetNotFound`/`DatasetInvalid`; in particular, constructing with a
non-existent address-index path fails with `DatasetNotFound` naming the
address-index dataset ("EPC"), not the coordinate dataset
("OS Open UPRN"). -/
theorem c6_engine_init (epc_db os_db : List Char) (t : ℚ)
    (wEpc wOs : ExecWorld (List (List Char))) :
    (wEpc.existsAtOpen = false →
      mkUKGeolocate epc_db os_db t wEpc wOs =
        Except.error (.databaseNotFound epc_db ("EPC".toList)) ∧
      ∀ pth, mkUKGeolocate epc_db os_db t wEpc wOs ≠
        Except.error (.databaseNotFound pth ("OS Open UPRN".toList))) ∧
    (∀ tE tO, wEpc.existsAtOpen = true → wOs.existsAtOpen = true →
      wEpc.queryOutcome = Except.ok tE → wOs.queryOutcome = Except.ok tO →
      ((∃ g, mkUKGeolocate epc_db os_db t wEpc wOs = Except.ok g) ↔
        ("epc_addresses".toList ∈ tE ∧ "uprns".toList ∈ tO))) ∧
    (∀ tE, wEpc.existsAtOpen = true → wEpc.queryOutcome = Except.ok tE →
      ¬ "epc_addresses".toList ∈ tE →
      mkUKGeolocate epc_db os_db t wEpc wOs =
        Except.error (.databaseInvalid epc_db ("missing tables: epc_addresses".toList))) := by
  refine ⟨?_, ?_, ?_⟩
  · intro hopen
    have h1 : mkUKGeolocate epc_db os_db t wEpc wOs =
        Except.error (.databaseNotFound epc_db ("EPC".toList)) := by
      simp [mkUKGeolocate, validateTables, poolExecute, hopen]
    refine ⟨h1, ?_⟩
    intro pth hcontra
    rw [h1] at hcontra
    cases (UKError.databaseNotFound.inj (Except.error.inj hcontra)).2
  · intro tE tO hoE hoO hqE hqO
    have e1 : "epc_addresses".toList = ['e','p','c','_','a','d','d','r','e','s','s','e','s'] := rfl
    have e2 : "uprns".toList = ['u','p','r','n','s'] := rfl
    rw [e1, e2]
    by_cases hmE : ['e','p','c','_','a','d','d','r','e','s','s','e','s'] ∈ tE
    · by_cases hmO : ['u','p','r','n','s'] ∈ tO
      · simp [mkUKGeolocate, validateTables, poolExecute, poolRun, hoE, hoO, hqE, hqO,
          dedupStrs, hmE, hmO]
      · simp [mkUKGeolocate, validateTables, poolExecute, poolRun, hoE, hoO, hqE, hqO,
          dedupStrs, hmE, hmO]
    · simp [mkUKGeolocate, validateTables, poolExecute, poolRun, hoE, hoO, hqE, hqO,
        dedupStrs, hmE]
  · intro tE hoE hqE hmE
    have e1 : "epc_addresses".toList = ['e','p','c','_','a','d','d','r','e','s','s','e','s'] := rfl
    rw [e1] at hmE
    simp [mkUKGeolocate, validateTables, poolExecute, poolRun, hoE, hqE,
      dedupStrs, hmE, sortStrs, insertStr, joinCommaSpace]

/-- Witness for C6: a missing EPC file yields the EPC-named error, and a
fully valid pair of worlds constructs the engine. -/
theorem c6_engine_init_witness :
    ((⟨false, Except.ok [], true⟩ : ExecWorld (List (List Char))).existsAtOpen = false ∧
      mkUKGeolocate ("a.db".toList) ("b.db".toList) defaultThreshold
          (⟨false, Except.ok [], true⟩ : ExecWorld (List (List Char)))
          (⟨true, Except.ok [], true⟩ : ExecWorld (List (List Char))) =
        Except.error (.databaseNotFound ("a.db".toList) ("EPC".toList))) ∧
    (∃ g, mkUKGeolocate ("a.db".toList) ("b.db".toList) defaultThreshold
        (⟨true, Except.ok ["epc_addresses".toList], true⟩ : ExecWorld (List (List Char)))
        (⟨true, Except.ok ["uprns".toList], true⟩ : ExecWorld (List (List Char))) =
      Except.ok g) := by
  constructor
  · exact ⟨rfl,
      ((c6_engine_init ("a.db".toList) ("b.db".toList) defaultThreshold _ _).1 rfl).1⟩
  · exact ((c6_engine_init ("a.db".toList) ("b.db".toList) defaultThreshold _ _).2.1
      ["epc_addresses".toList] ["uprns".toList] rfl rfl rfl rfl).2
      ⟨by decide, by decide⟩

/-- Any error produced by `validate_tables` is a `DatabaseNotFound` for this
pool, a `DatabaseInvalid` with a "missing tables: …" detail, or the
operational error of the underlying catalog query. -/
theorem validateTables_error_shape (p : DatabasePool) (w : ExecWorld (List (List Char)))
    (exp : List (List Char)) (e : UKError)
    (h : (validateTables p w exp).2 = Except.error e) :
    e = .databaseNotFound p.path p.name ∨
    (∃ d, e = .databaseInvalid p.path ("missing tables: ".toList ++ d)) ∨
    (∃ m, w.queryOutcome = Except.error m ∧ e = .operational m) := by
  rcases p with ⟨pth, nm, conn⟩
  rcases w with ⟨ho, q, re⟩
  rcases conn with _ | u <;> rcases q with m | rows <;> rcases ho <;> rcases re <;>
    simp only [validateTables, poolExecute, poolRun] at h ⊢
  all_goals first
    | (simp at h
       first
        | exact Or.inl h.symm
        | exact Or.inr (Or.inr ⟨m, rfl, h.symm⟩)
        | cases h)
    | (simp at h
       by_cases hP : ∃ x ∈ dedupStrs exp, x ∉ rows
       · simp [hP] at h
         exact Or.inr (Or.inl ⟨_, h.symm⟩)
       · simp [hP] at h)

/-- Stringified `validate_tables` failures are never the literal `"ok"`
(given that low-level operational messages are not). -/
theorem strOfError_ne_ok (p : DatabasePool) (w : ExecWorld (List (List Char)))
    (exp : List (List Char)) (e : UKError)
    (hqm : ∀ m, w.queryOutcome = Except.error m → m ≠ "ok".toList)
    (h : (validateTables p w exp).2 = Except.error e) :
    strOfError e ≠ "ok".toList := by
  rcases validateTables_error_shape p w exp e h with h1 | ⟨d, h2⟩ | ⟨m, hm1, h3⟩
  · subst h1
    intro hcontra
    have := congrArg List.length hcontra
    simp [strOfError] at this
    omega
  · subst h2
    intro hcontra
    have := congrArg List.length hcontra
    simp [strOfError] at this
  · subst h3
    simpa [strOfError] using hqm m hm1


/-- **C9.** `health_check` never throws: each store's schema-validation
failure is caught and stringified into that store's status field rather
than propagated (totality is by construction: the model returns a
`HealthStatus`, not an `Except`), and the overall `healthy` flag is true
exactly when both stores report `"ok"`.  The hypotheses say the low-level
operational-error messages are not themselves the literal `"ok"`. -/
theorem c9_health_check (g : UKGeolocate) (wEpc wOs : ExecWorld (List (List Char)))
    (hEm : ∀ m, wEpc.queryOutcome = Except.error m → m ≠ "ok".toList)
    (hOm : ∀ m, wOs.queryOutcome = Except.error m → m ≠ "ok".toList) :
    (∀ e, (validateTables g.epc_pool wEpc ["epc_addresses".toList]).2 = Except.error e →
      (health_check g wEpc wOs).epc_db = strOfError e ∧
      (health_check g wEpc wOs).healthy = false) ∧
    (∀ e, (validateTables g.os_pool wOs ["uprns".toList]).2 = Except.error e →
      (health_check g wEpc wOs).os_db = strOfError e ∧
      (health_check g wEpc wOs).healthy = false) ∧
    ((health_check g wEpc wOs).healthy = true ↔
      ((health_check g wEpc wOs).epc_db = "ok".toList ∧
       (health_check g wEpc wOs).os_db = "ok".toList)) := by
  have hneE : ∀ e, (validateTables g.epc_pool wEpc ["epc_addresses".toList]).2 =
      Except.error e → strOfError e ≠ "ok".toList :=
    fun e he => strOfError_ne_ok g.epc_pool wEpc ["epc_addresses".toList] e hEm he
  have hneO : ∀ e, (validateTables g.os_pool wOs ["uprns".toList]).2 =
      Except.error e → strOfError e ≠ "ok".toList :=
    fun e he => strOfError_ne_ok g.os_pool wOs ["uprns".toList] e hOm he
  have hhc : health_check g wEpc wOs =
      (match validateTables g.os_pool wOs ["uprns".toList] with
       | (_, Except.error e) =>
         ⟨false,
          (match validateTables g.epc_pool wEpc ["epc_addresses".toList] with
           | (_, Except.error e2) => (⟨false, strOfError e2, "ok".toList⟩ : HealthStatus)
           | (_, Except.ok _) => ⟨true, "ok".toList, "ok".toList⟩).epc_db,
          strOfError e⟩
       | (_, Except.ok _) =>
         match validateTables g.epc_pool wEpc ["epc_addresses".toList] with
         | (_, Except.error e2) => ⟨false, strOfError e2, "ok".toList⟩
         | (_, Except.ok _) => ⟨true, "ok".toList, "ok".toList⟩) := rfl
  rcases hE : validateTables g.epc_pool wEpc ["epc_addresses".toList] with ⟨pE, rE⟩
  rcases hO : validateTables g.os_pool wOs ["uprns".toList] with ⟨pO, rO⟩
  rw [hE] at hneE
  rw [hO] at hneO
  rw [hE, hO] at hhc
  rcases rE with eE | vE <;> rcases rO with eO | vO <;> simp only at hhc <;> rw [hhc] <;>
      refine ⟨?_, ?_, ?_⟩ <;>
    first
      | (intro e he
         exact Except.noConfusion he)
      | (intro e he
         simp at he
         subst he
         simp
         done)
      | (simp [hneE, hneO]
         done)
      | (simp
         exact fun hcontra => hneE _ rfl hcontra)
      | (simp
         exact fun hcontra => hneO _ rfl hcontra)
      | (simp
         exact fun h1 h2 => hneO _ rfl h2)

/-- Witness for C9: both datasets valid (the spec's Scenario F) gives
`{healthy: true, epc_db: "ok", os_db: "ok"}`. -/
theorem c9_health_check_witness :
    health_check
        ⟨defaultThreshold, ⟨"a".toList, "EPC".toList, some ()⟩,
          ⟨"b".toList, "OS Open UPRN".toList, some ()⟩⟩
        ⟨true, Except.ok ["epc_addresses".toList], true⟩
        ⟨true, Except.ok ["uprns".toList], true⟩ =
      ⟨true, "ok".toList, "ok".toList⟩ ∧
    ((health_check
        ⟨defaultThreshold, ⟨"a".toList, "EPC".toList, some ()⟩,
          ⟨"b".toList, "OS Open UPRN".toList, some ()⟩⟩
        ⟨true, Except.ok ["epc_addresses".toList], true⟩
        ⟨true, Except.ok ["uprns".toList], true⟩).healthy = true ↔
      ((health_check
          ⟨defaultThreshold, ⟨"a".toList, "EPC".toList, some ()⟩,
            ⟨"b".toList, "OS Open UPRN".toList, some ()⟩⟩
          ⟨true, Except.ok ["epc_addresses".toList], true⟩
          ⟨true, Except.ok ["uprns".toList], true⟩).epc_db = "ok".toList ∧
       (health_check
          ⟨defaultThreshold, ⟨"a".toList, "EPC".toList, some ()⟩,
            ⟨"b".toList, "OS Open UPRN".toList, some ()⟩⟩
          ⟨true, Except.ok ["epc_addresses".toList], true⟩
          ⟨true, Except.ok ["uprns".toList], true⟩).os_db = "ok".toList)) :=
  ⟨by decide,
   (c9_health_check _ _ _ (fun m hm => Except.noConfusion hm)
      (fun m hm => Except.noConfusion hm)).2.2⟩

/-- Any `some` result of the selection loop arises from a row of the list
(unless it is the initial accumulator): its UPRN parsed, its
matched-address text is `addr_full or addr1 or ""`, and its score is the
row's score. -/
theorem lookupLoop_result_shape (t : ℚ) (q : List Char) :
    ∀ (rows : List EpcRow) (best res : Option (Int × List Char × ℚ))
      (h : lookupLoop t q rows best = res),
      (∃ r ∈ rows, ∃ u m, res = some (u, m, rowScore q r) ∧ pyInt r.uprn_str = some u ∧
        m = pyOrStr r.addr_full (pyOrStr r.addr1 [])) ∨ best = res := by
  intro rows
  induction rows with
  | nil => intro best res h; exact Or.inr h
  | cons r rs ih =>
    intro best res h
    simp only [lookupLoop] at h
    split at h
    · split at h
      · rcases ih best res h with ⟨r2, hr2, rest⟩ | hb
        · exact Or.inl ⟨r2, List.mem_cons_of_mem r hr2, rest⟩
        · exact Or.inr hb
      · rename_i uprn_int hu
        split at h
        · exact Or.inl ⟨r, List.mem_cons_self r rs, _, _, h.symm, hu, rfl⟩
        · rcases ih _ res h with ⟨r2, hr2, rest⟩ | hb
          · exact Or.inl ⟨r2, List.mem_cons_of_mem r hr2, rest⟩
          · exact Or.inl ⟨r, List.mem_cons_self r rs, _, _, hb.symm, hu, rfl⟩
    · rcases ih best res h with ⟨r2, hr2, rest⟩ | hb
      · exact Or.inl ⟨r2, List.mem_cons_of_mem r hr2, rest⟩
      · exact Or.inr hb

/-- The selection loop never lets a row whose UPRN fails `int` parsing
affect the state: it computes the same result as the loop over the list
with those rows removed. -/
theorem lookupLoop_filter_parse (t : ℚ) (q : List Char) :
    ∀ (rows : List EpcRow) (best : Option (Int × List Char × ℚ)),
      lookupLoop t q rows best =
        lookupLoop t q (rows.filter (fun r => (pyInt r.uprn_str).isSome)) best := by
  intro rows
  induction rows with
  | nil => intro best; rfl
  | cons r rs ih =>
    intro best
    rcases hpy : pyInt r.uprn_str with _ | u
    · have hs : (pyInt r.uprn_str).isSome = false := by rw [hpy]; rfl
      rw [List.filter_cons]
      rw [hs]
      simp only [Bool.false_eq_true, if_false]
      simp only [lookupLoop, hpy]
      split
      · exact ih best
      · exact ih best
    · have hs : (pyInt r.uprn_str).isSome = true := by rw [hpy]; rfl
      rw [List.filter_cons, hs]
      simp only [if_true]
      simp only [lookupLoop, hpy]
      split
      · split
        · rfl
        · exact ih _
      · exact ih best

/-- **C2.** Candidate selection never returns a row whose raw UPRN field
fails integer parsing, even when that row has the highest similarity
score; such a row is skipped without raising any error (the loop computes
exactly what it computes on the list with unparseable rows removed), and
the best-scoring remaining row whose UPRN does parse (and meets the
threshold) is returned instead. -/
theorem c2_skips_unparseable (t : ℚ) (address_line : List Char)
    (rows : List EpcRow) :
    lookup_uprn t address_line rows =
      lookup_uprn t address_line (rows.filter (fun r => (pyInt r.uprn_str).isSome)) ∧
    (∀ u m s, lookup_uprn t address_line rows = some (u, m, s) →
      ∃ r ∈ rows, pyInt r.uprn_str = some u) := by
  constructor
  · exact lookupLoop_filter_parse t (addrNormalise address_line) rows none
  · intro u m s h
    rcases lookupLoop_result_shape t (addrNormalise address_line) rows none _ h with
      ⟨r, hr, u2, m2, hres, hu2, _⟩ | hb
    · rcases Option.some.inj hres with h2
      exact ⟨r, hr, by rw [hu2, (Prod.mk.injEq _ _ _ _).mp h2 |>.1]⟩
    · cases hb

/-- **C3** (amended).  For every successfully resolved lookup, the
matched-address text is the chosen row's full-address column when that is
non-empty; when it is empty or NULL it falls back to the first alternate
column (`addr1`), and to the empty string when that is also empty or NULL —
the later alternate columns (`addr2`, `addr3`) are never consulted. -/
theorem c3_matched_address (t : ℚ) (address_line : List Char)
    (rows : List EpcRow) (u : Int) (m : List Char) (s : ℚ)
    (h : lookup_uprn t address_line rows = some (u, m, s)) :
    ∃ r ∈ rows, pyInt r.uprn_str = some u ∧ s = rowScore (addrNormalise address_line) r ∧
      m = pyOrStr r.addr_full (pyOrStr r.addr1 []) ∧
      (∀ sfull, r.addr_full = some sfull → sfull ≠ [] → m = sfull) ∧
      (pyOrStr r.addr_full [] = [] → m = pyOrStr r.addr1 []) := by
  rcases lookupLoop_result_shape t (addrNormalise address_line) rows none _ h with
    ⟨r, hr, u2, m2, hres, hu2, hm2⟩ | hb
  · rcases Option.some.inj hres with h2
    rcases (Prod.mk.injEq _ _ _ _).mp h2 with ⟨he1, he2⟩
    rcases (Prod.mk.injEq _ _ _ _).mp he2 with ⟨he3, he4⟩
    subst he1
    subst he3
    subst he4
    refine ⟨r, hr, by rw [hu2], rfl, hm2, ?_, ?_⟩
    · intro sfull hfull hne
      rw [hm2, hfull, pyOrStr, if_neg hne]
    · intro hempty
      rcases hfull : r.addr_full with _ | sf
      · rw [hm2, hfull]; rfl
      · rw [hfull] at hempty
        have hsf : sf = [] := by
          by_cases hc : sf = []
          · exact hc
          · exact absurd hempty (by simp [pyOrStr, hc])
        rw [hm2, hfull, hsf]
        rfl
  · cases hb

/-- Witness for C3 (amended) at a concrete resolved lookup. -/
theorem c3_matched_address_witness :
    lookup_uprn defaultThreshold ("10 DOWNING ST".toList)
        [⟨"5".toList, some ("10 DOWNING ST".toList), none, none, some []⟩] =
      some (5, "10 DOWNING ST".toList, 1) ∧
    ∃ r ∈ [(⟨"5".toList, some ("10 DOWNING ST".toList), none, none, some []⟩ : EpcRow)],
      pyInt r.uprn_str = some 5 ∧
      (1 : ℚ) = rowScore (addrNormalise ("10 DOWNING ST".toList)) r ∧
      "10 DOWNING ST".toList = pyOrStr r.addr_full (pyOrStr r.addr1 []) ∧
      (∀ sfull, r.addr_full = some sfull → sfull ≠ [] → "10 DOWNING ST".toList = sfull) ∧
      (pyOrStr r.addr_full [] = [] → "10 DOWNING ST".toList = pyOrStr r.addr1 []) :=
  ⟨by decide, c3_matched_address defaultThreshold ("10 DOWNING ST".toList) _ 5
    ("10 DOWNING ST".toList) 1 (by decide)⟩

/-- **C3** (counterexample to the claim as stated).  The claim says an
empty full-address column falls back to the first available *non-empty*
alternate address column; but with `addr_full = ""`, `addr1 = ""` and a
non-empty `addr2` (which is what the row matched on), the code returns the
empty string, not `addr2`. -/
theorem c3_matched_address_cex :
    lookup_uprn defaultThreshold ("10 DOWNING ST".toList)
        [⟨"5".toList, some [], some ("10 DOWNING ST".toList), none, some []⟩] =
      some (5, [], 1) ∧
    ([] : List Char) ≠ "10 DOWNING ST".toList := ⟨by decide, by decide⟩

/-- **C4** (counterexample to the claim as stated).  `"SW1A\t2AA"` matches
the grammar (the regex `\s?` accepts the tab), but `normalise` removes only
the space character, yielding `"SW1A\t 2AA"`, which fails validation — so
`normalise (normalise x)` raises instead of returning `normalise x`. -/
theorem c4_idempotence_cex :
    pcValidate ['S','W','1','A','\t','2','A','A'] = true ∧
    pcNormalise ['S','W','1','A','\t','2','A','A'] =
      Except.ok ['S','W','1','A','\t',' ','2','A','A'] ∧
    pcNormalise ['S','W','1','A','\t',' ','2','A','A'] =
      Except.error ['S','W','1','A','\t',' ','2','A','A'] := by
  refine ⟨by decide, by decide, by decide⟩

/-- **C10** (counterexample to the claim as stated).  With an address line
that normalises to empty, a first candidate row with NULL address columns
(a "perfect" score of 1.0) but an unparseable UPRN is *not*
short-circuited on: the loop skips it, the remaining row scores 0, and
the call fails with `NoMatchFound` instead of returning that row as a
perfect match. -/
theorem c10_empty_query_cex :
    addrNormalise [] = [] ∧
    hasEmptyAddrCol ⟨"x".toList, none, none, none, none⟩ = true ∧
    pyInt ("x".toList) = none ∧
    find_coordinates defaultThreshold ("SW1A 2AA".toList) []
        [⟨"x".toList, none, none, none, none⟩,
          ⟨"7".toList, some ("Y".toList), some ("Y".toList), some ("Y".toList),
            some ("Y".toList)⟩]
        (fun _ => some (1, 2, 3, 4)) =
      Except.error (.noMatchFound ("SW1A 2AA".toList) []) := by
  refine ⟨by decide, by decide, by decide, by decide⟩

/-- Witness for C2 (the spec's Scenario D): the row with the highest score
has UPRN `"not_a_number"`; it is skipped and the next-best parseable row
(UPRN 7) is returned. -/
theorem c2_skips_unparseable_witness :
    lookup_uprn defaultThreshold ("10 DOWNING ST".toList)
        [⟨"not_a_number".toList, none, none, none, some ("10 DOWNING ST".toList)⟩,
          ⟨"7".toList, none, none, none, some ("10 DOWNING STREET".toList)⟩] =
      some (7, "10 DOWNING STREET".toList, mkRat 13 15) ∧
    lookup_uprn defaultThreshold ("10 DOWNING ST".toList)
        [⟨"not_a_number".toList, none, none, none, some ("10 DOWNING ST".toList)⟩,
          ⟨"7".toList, none, none, none, some ("10 DOWNING STREET".toList)⟩] =
      lookup_uprn defaultThreshold ("10 DOWNING ST".toList)
        (([⟨"not_a_number".toList, none, none, none, some ("10 DOWNING ST".toList)⟩,
            ⟨"7".toList, none, none, none, some ("10 DOWNING STREET".toList)⟩] :
          List EpcRow).filter (fun r => (pyInt r.uprn_str).isSome)) ∧
    ∃ r ∈ [(⟨"not_a_number".toList, none, none, none,
              some ("10 DOWNING ST".toList)⟩ : EpcRow),
            ⟨"7".toList, none, none, none, some ("10 DOWNING STREET".toList)⟩],
      pyInt r.uprn_str = some 7 :=
  ⟨by decide,
   (c2_skips_unparseable defaultThreshold ("10 DOWNING ST".toList) _).1,
   (c2_skips_unparseable defaultThreshold ("10 DOWNING ST".toList) _).2 7
     ("10 DOWNING STREET".toList) (mkRat 13 15) (by decide)⟩

/-! ### Bounds on `find_longest_match` and `ratio`

The matching blocks reported by the worklist of `get_matching_blocks` live
in pairwise-disjoint ranges of `a` (and of `b`), so the total matched size
`M` is at most `min(len(a), len(b))`, whence `0 ≤ ratio ≤ 1`. -/

/-- Main-loop invariant: every `j2len` entry is bounded by its column and
row offsets, and the best block (unless still the initial `(alo, blo, 0)`)
lies inside the current rectangle. -/
theorem flmInner_bound (i alo blo bhi : Nat) (j2len : Nat → Nat)
    (halo : alo ≤ i)
    (hprev : ∀ j, j2len j ≤ j + 1 - blo ∧ j2len j ≤ i - alo) :
    ∀ (js : List Nat) (newj2len : Nat → Nat) (best : Nat × Nat × Nat),
      (∀ j, newj2len j ≤ j + 1 - blo ∧ newj2len j ≤ i + 1 - alo) →
      (best = (alo, blo, 0) ∨
        (1 ≤ best.2.2 ∧ alo ≤ best.1 ∧ best.1 + best.2.2 ≤ i + 1 ∧
         blo ≤ best.2.1 ∧ best.2.1 + best.2.2 ≤ bhi)) →
      (∀ j, (flmInner i blo bhi j2len js newj2len best).1 j ≤ j + 1 - blo ∧
        (flmInner i blo bhi j2len js newj2len best).1 j ≤ i + 1 - alo) ∧
      ((flmInner i blo bhi j2len js newj2len best).2 = (alo, blo, 0) ∨
        (1 ≤ (flmInner i blo bhi j2len js newj2len best).2.2.2 ∧
         alo ≤ (flmInner i blo bhi j2len js newj2len best).2.1 ∧
         (flmInner i blo bhi j2len js newj2len best).2.1 +
           (flmInner i blo bhi j2len js newj2len best).2.2.2 ≤ i + 1 ∧
         blo ≤ (flmInner i blo bhi j2len js newj2len best).2.2.1 ∧
         (flmInner i blo bhi j2len js newj2len best).2.2.1 +
           (flmInner i blo bhi j2len js newj2len best).2.2.2 ≤ bhi)) := by
  intro js
  induction js with
  | nil =>
    intro newj2len best hnew hbest
    simp only [flmInner]
    refine ⟨hnew, ?_⟩
    rcases hbest with h0 | ⟨h1, h2, h3, h4, h5⟩
    · exact Or.inl h0
    · exact Or.inr ⟨h1, h2, by omega, h4, h5⟩
  | cons j js2 ih =>
    intro newj2len best hnew hbest
    simp only [flmInner]
    by_cases hjlo : j < blo
    · rw [if_pos hjlo]
      exact ih newj2len best hnew hbest
    · rw [if_neg hjlo]
      by_cases hjhi : bhi ≤ j
      · rw [if_pos hjhi]
        dsimp only
        refine ⟨hnew, ?_⟩
        rcases hbest with h0 | ⟨h1, h2, h3, h4, h5⟩
        · exact Or.inl h0
        · exact Or.inr ⟨h1, h2, by omega, h4, h5⟩
      · rw [if_neg hjhi]
        have hk1 : (if j = 0 then 0 else j2len (j - 1)) + 1 ≤ j + 1 - blo := by
          by_cases hj0 : j = 0
          · rw [if_pos hj0]; omega
          · rw [if_neg hj0]
            have := (hprev (j - 1)).1
            omega
        have hk2 : (if j = 0 then 0 else j2len (j - 1)) + 1 ≤ i + 1 - alo := by
          by_cases hj0 : j = 0
          · rw [if_pos hj0]; omega
          · rw [if_neg hj0]
            have := (hprev (j - 1)).2
            omega
        have hnew1 : ∀ j2,
            (fun j2 => if j2 = j then (if j = 0 then 0 else j2len (j - 1)) + 1 else newj2len j2) j2 ≤ j2 + 1 - blo ∧
            (fun j2 => if j2 = j then (if j = 0 then 0 else j2len (j - 1)) + 1 else newj2len j2) j2 ≤ i + 1 - alo := by
          intro j2
          by_cases hj2 : j2 = j
          · subst hj2; simp only [if_pos rfl]; exact ⟨hk1, hk2⟩
          · simp only [if_neg hj2]; exact hnew j2
        by_cases hgt : best.2.2 < (if j = 0 then 0 else j2len (j - 1)) + 1
        · rw [if_pos hgt]
          refine ih _ _ hnew1 (Or.inr ?_)
          dsimp only
          omega
        · rw [if_neg hgt]
          exact ih _ best hnew1 hbest

/-- The main loop of `find_longest_match` keeps the best block inside the
rectangle. -/
theorem flmOuter_bound (a b : List Char) (alo blo bhi : Nat) :
    ∀ (cnt i : Nat) (j2len : Nat → Nat) (best : Nat × Nat × Nat),
      alo ≤ i →
      (∀ j, j2len j ≤ j + 1 - blo ∧ j2len j ≤ i - alo) →
      (best = (alo, blo, 0) ∨
        (1 ≤ best.2.2 ∧ alo ≤ best.1 ∧ best.1 + best.2.2 ≤ i ∧
         blo ≤ best.2.1 ∧ best.2.1 + best.2.2 ≤ bhi)) →
      (flmOuter a b blo bhi (List.range' i cnt) j2len best = (alo, blo, 0) ∨
        (1 ≤ (flmOuter a b blo bhi (List.range' i cnt) j2len best).2.2 ∧
         alo ≤ (flmOuter a b blo bhi (List.range' i cnt) j2len best).1 ∧
         (flmOuter a b blo bhi (List.range' i cnt) j2len best).1 +
           (flmOuter a b blo bhi (List.range' i cnt) j2len best).2.2 ≤ i + cnt ∧
         blo ≤ (flmOuter a b blo bhi (List.range' i cnt) j2len best).2.1 ∧
         (flmOuter a b blo bhi (List.range' i cnt) j2len best).2.1 +
           (flmOuter a b blo bhi (List.range' i cnt) j2len best).2.2 ≤ bhi)) := by
  intro cnt
  induction cnt with
  | zero =>
    intro i j2len best halo hprev hbest
    simp only [List.range', flmOuter]
    rcases hbest with h0 | ⟨h1, h2, h3, h4, h5⟩
    · exact Or.inl h0
    · exact Or.inr ⟨h1, h2, by omega, h4, h5⟩
  | succ cnt2 ih =>
    intro i j2len best halo hprev hbest
    simp only [List.range', flmOuter]
    have hstep := flmInner_bound i alo blo bhi j2len halo hprev
      (b2j b (a.getD i ' ')) (fun _ => 0) best (by intro j; dsimp only; omega)
      (by rcases hbest with h0 | ⟨h1, h2, h3, h4, h5⟩
          · exact Or.inl h0
          · exact Or.inr ⟨h1, h2, by omega, h4, h5⟩)
    have hih := ih (i + 1)
      (flmInner i blo bhi j2len (b2j b (a.getD i ' ')) (fun _ => 0) best).1
      (flmInner i blo bhi j2len (b2j b (a.getD i ' ')) (fun _ => 0) best).2
      (by omega)
      (by intro j
          have := hstep.1 j
          omega)
      (by rcases hstep.2 with h0 | ⟨h1, h2, h3, h4, h5⟩
          · exact Or.inl h0
          · exact Or.inr ⟨h1, h2, by omega, h4, h5⟩)
    have : i + 1 + cnt2 = i + (cnt2 + 1) := by omega
    rw [this] at hih
    exact hih

/-- The backward extension loop preserves the block's two endpoint sums and
never crosses the lower bounds. -/
theorem flmExtLo_sum (a b : List Char) (alo blo : Nat) :
    ∀ (besti bestj bestsize : Nat), alo ≤ besti → blo ≤ bestj →
      alo ≤ (flmExtLo a b alo blo besti bestj bestsize).1 ∧
      blo ≤ (flmExtLo a b alo blo besti bestj bestsize).2.1 ∧
      (flmExtLo a b alo blo besti bestj bestsize).1 +
        (flmExtLo a b alo blo besti bestj bestsize).2.2 = besti + bestsize ∧
      (flmExtLo a b alo blo besti bestj bestsize).2.1 +
        (flmExtLo a b alo blo besti bestj bestsize).2.2 = bestj + bestsize ∧
      bestsize ≤ (flmExtLo a b alo blo besti bestj bestsize).2.2 := by
  intro besti
  induction besti with
  | zero =>
    intro bestj bestsize h1 h2
    refine ⟨?_, ?_, ?_, ?_, ?_⟩ <;> simp only [flmExtLo] <;> omega
  | succ bi ih =>
    intro bestj bestsize h1 h2
    simp only [flmExtLo]
    split
    · rename_i hcond
      have := ih (bestj - 1) (bestsize + 1) (by omega) (by omega)
      omega
    · dsimp only
      omega

/-- The forward extension loop keeps the block inside the rectangle. -/
theorem flmExtHiAux_bound (a b : List Char) (ahi bhi besti bestj : Nat) :
    ∀ (fuel bestsize : Nat), besti + bestsize ≤ ahi → bestj + bestsize ≤ bhi →
      (flmExtHiAux a b ahi bhi besti bestj fuel bestsize).1 = besti ∧
      (flmExtHiAux a b ahi bhi besti bestj fuel bestsize).2.1 = bestj ∧
      bestsize ≤ (flmExtHiAux a b ahi bhi besti bestj fuel bestsize).2.2 ∧
      besti + (flmExtHiAux a b ahi bhi besti bestj fuel bestsize).2.2 ≤ ahi ∧
      bestj + (flmExtHiAux a b ahi bhi besti bestj fuel bestsize).2.2 ≤ bhi := by
  intro fuel
  induction fuel with
  | zero =>
    intro bestsize h1 h2
    refine ⟨?_, ?_, ?_, ?_, ?_⟩ <;> simp only [flmExtHiAux] <;> omega
  | succ f ih =>
    intro bestsize h1 h2
    simp only [flmExtHiAux]
    split
    · rename_i hcond
      have := ih (bestsize + 1) (by omega) (by omega)
      omega
    · dsimp only
      omega

/-- The forward extension loop does nothing once a boundary is reached. -/
theorem flmExtHiAux_stuck (a b : List Char) (ahi bhi besti bestj : Nat)
    (fuel bestsize : Nat) (h : ahi ≤ besti + bestsize ∨ bhi ≤ bestj + bestsize) :
    flmExtHiAux a b ahi bhi besti bestj fuel bestsize = (besti, bestj, bestsize) := by
  cases fuel with
  | zero => rfl
  | succ f =>
    simp only [flmExtHiAux]
    rw [if_neg]
    intro hcond
    omega

/-- A non-empty block returned by `find_longest_match` lies inside the
requested rectangle. -/
theorem flm_bound (a b : List Char) (alo ahi blo bhi : Nat)
    (hk : (find_longest_match a b alo ahi blo bhi).2.2 ≠ 0) :
    alo ≤ (find_longest_match a b alo ahi blo bhi).1 ∧
    (find_longest_match a b alo ahi blo bhi).1 +
      (find_longest_match a b alo ahi blo bhi).2.2 ≤ ahi ∧
    blo ≤ (find_longest_match a b alo ahi blo bhi).2.1 ∧
    (find_longest_match a b alo ahi blo bhi).2.1 +
      (find_longest_match a b alo ahi blo bhi).2.2 ≤ bhi := by
  have hmain := flmOuter_bound a b alo blo bhi (ahi - alo) alo (fun _ => 0) (alo, blo, 0)
    (le_refl alo) (by intro j; dsimp only; omega) (Or.inl rfl)
  rcases hout : flmOuter a b blo bhi (List.range' alo (ahi - alo)) (fun _ => 0) (alo, blo, 0)
    with ⟨bi, bj, bs⟩
  have hflm : find_longest_match a b alo ahi blo bhi =
      flmExtHi a b ahi bhi (flmExtLo a b alo blo bi bj bs) := by
    unfold find_longest_match
    rw [hout]
  rw [hout] at hmain
  rw [hflm] at hk ⊢
  rcases hmain with h0 | hbnd
  · have e1 : bi = alo := congrArg Prod.fst h0
    have e2 : bj = blo := congrArg (fun x => x.2.1) h0
    have e3 : bs = 0 := congrArg (fun x => x.2.2) h0
    rw [e1, e2, e3] at hk ⊢
    have hlo : flmExtLo a b alo blo alo blo 0 = (alo, blo, 0) := by
      cases alo with
      | zero => simp only [flmExtLo]
      | succ m =>
        simp only [flmExtLo]
        rw [if_neg]
        intro hcond
        omega
    rw [hlo] at hk ⊢
    have hhi : flmExtHi a b ahi bhi (alo, blo, 0) =
        flmExtHiAux a b ahi bhi alo blo (ahi - (alo + 0)) 0 := rfl
    rw [hhi] at hk ⊢
    by_cases hA : ahi ≤ alo
    · rw [flmExtHiAux_stuck a b ahi bhi alo blo _ 0 (Or.inl (by omega))] at hk
      exact absurd rfl hk
    · by_cases hB : bhi ≤ blo
      · rw [flmExtHiAux_stuck a b ahi bhi alo blo _ 0 (Or.inr (by omega))] at hk
        exact absurd rfl hk
      · have := flmExtHiAux_bound a b ahi bhi alo blo (ahi - (alo + 0)) 0 (by omega) (by omega)
        omega
  · dsimp only at hbnd
    have hlo := flmExtLo_sum a b alo blo bi bj bs (by omega) (by omega)
    rcases hr1 : flmExtLo a b alo blo bi bj bs with ⟨ci, cj, cs⟩
    rw [hr1] at hk hlo
    dsimp only at hlo
    have hhi : flmExtHi a b ahi bhi (ci, cj, cs) =
        flmExtHiAux a b ahi bhi ci cj (ahi - (ci + cs)) cs := rfl
    rw [hhi] at hk ⊢
    have := flmExtHiAux_bound a b ahi bhi ci cj (ahi - (ci + cs)) cs (by omega) (by omega)
    omega

/-- Unfolding `sumSizes` over a cons. -/
theorem sumSizes_cons (x : Nat × Nat × Nat) (l : List (Nat × Nat × Nat)) :
    sumSizes (x :: l) = x.2.2 + sumSizes l := by
  simp [sumSizes]

/-- The total size of the blocks produced by the worklist is bounded by the
total `a`-width of the queued rectangles. -/
theorem gmbLoop_sumA (a b : List Char) :
    ∀ (fuel : Nat) (queue : List (Nat × Nat × Nat × Nat)) (blocks : List (Nat × Nat × Nat)),
      sumSizes (gmbLoop a b fuel queue blocks) ≤
        sumSizes blocks + (queue.map (fun r => r.2.1 - r.1)).sum := by
  intro fuel
  induction fuel with
  | zero => intro queue blocks; simp [gmbLoop]
  | succ f ih =>
    intro queue blocks
    rcases queue with _ | ⟨⟨alo, ahi, blo, bhi⟩, rest⟩
    · simp [gmbLoop]
    · rcases hx : find_longest_match a b alo ahi blo bhi with ⟨xi, xj, xk⟩
      simp only [gmbLoop, hx]
      by_cases hk : xk = 0
      · rw [if_neg (by simp [hk])]
        have := ih rest blocks
        simp only [List.map_cons, List.sum_cons]
        omega
      · rw [if_pos (by simp [hk])]
        have hb := flm_bound a b alo ahi blo bhi (by rw [hx]; simpa using hk)
        rw [hx] at hb
        dsimp only at hb
        have hrec := fun q => ih q ((xi, xj, xk) :: blocks)
        by_cases h2 : xi + xk < ahi ∧ xj + xk < bhi <;>
          by_cases h1 : alo < xi ∧ blo < xj
        · rw [if_pos h2, if_pos h1]
          refine le_trans (hrec _) ?_
          simp only [sumSizes_cons, List.map_cons, List.sum_cons]
          omega
        · rw [if_pos h2, if_neg h1]
          refine le_trans (hrec _) ?_
          simp only [sumSizes_cons, List.map_cons, List.sum_cons]
          omega
        · rw [if_neg h2, if_pos h1]
          refine le_trans (hrec _) ?_
          simp only [sumSizes_cons, List.map_cons, List.sum_cons]
          omega
        · rw [if_neg h2, if_neg h1]
          refine le_trans (hrec _) ?_
          simp only [sumSizes_cons, List.map_cons, List.sum_cons]
          omega

/-- The total size of the blocks produced by the worklist is bounded by the
total `b`-width of the queued rectangles. -/
theorem gmbLoop_sumB (a b : List Char) :
    ∀ (fuel : Nat) (queue : List (Nat × Nat × Nat × Nat)) (blocks : List (Nat × Nat × Nat)),
      sumSizes (gmbLoop a b fuel queue blocks) ≤
        sumSizes blocks + (queue.map (fun r => r.2.2.2 - r.2.2.1)).sum := by
  intro fuel
  induction fuel with
  | zero => intro queue blocks; simp [gmbLoop]
  | succ f ih =>
    intro queue blocks
    rcases queue with _ | ⟨⟨alo, ahi, blo, bhi⟩, rest⟩
    · simp [gmbLoop]
    · rcases hx : find_longest_match a b alo ahi blo bhi with ⟨xi, xj, xk⟩
      simp only [gmbLoop, hx]
      by_cases hk : xk = 0
      · rw [if_neg (by simp [hk])]
        have := ih rest blocks
        simp only [List.map_cons, List.sum_cons]
        omega
      · rw [if_pos (by simp [hk])]
        have hb := flm_bound a b alo ahi blo bhi (by rw [hx]; simpa using hk)
        rw [hx] at hb
        dsimp only at hb
        have hrec := fun q => ih q ((xi, xj, xk) :: blocks)
        by_cases h2 : xi + xk < ahi ∧ xj + xk < bhi <;>
          by_cases h1 : alo < xi ∧ blo < xj
        · rw [if_pos h2, if_pos h1]
          refine le_trans (hrec _) ?_
          simp only [sumSizes_cons, List.map_cons, List.sum_cons]
          omega
        · rw [if_pos h2, if_neg h1]
          refine le_trans (hrec _) ?_
          simp only [sumSizes_cons, List.map_cons, List.sum_cons]
          omega
        · rw [if_neg h2, if_pos h1]
          refine le_trans (hrec _) ?_
          simp only [sumSizes_cons, List.map_cons, List.sum_cons]
          omega
        · rw [if_neg h2, if_neg h1]
          refine le_trans (hrec _) ?_
          simp only [sumSizes_cons, List.map_cons, List.sum_cons]
          omega

/-- Insertion keeps the total block size. -/
theorem sumSizes_insertBlock (x : Nat × Nat × Nat) :
    ∀ l : List (Nat × Nat × Nat), sumSizes (insertBlock x l) = x.2.2 + sumSizes l := by
  intro l
  induction l with
  | nil => simp [insertBlock, sumSizes]
  | cons y ys ih =>
    simp only [insertBlock]
    split
    · rw [sumSizes_cons, ih, sumSizes_cons]
      omega
    · rw [sumSizes_cons, sumSizes_cons]

/-- Sorting keeps the total block size. -/
theorem sumSizes_sortBlocks :
    ∀ l : List (Nat × Nat × Nat), sumSizes (sortBlocks l) = sumSizes l := by
  intro l
  induction l with
  | nil => rfl
  | cons x xs ih =>
    rw [sortBlocks, sumSizes_insertBlock, ih, sumSizes_cons]

/-- Collapsing adjacent blocks keeps the total block size. -/
theorem sumSizes_mergeAdjacent :
    ∀ (l : List (Nat × Nat × Nat)) (acc : Nat × Nat × Nat),
      sumSizes (mergeAdjacent acc l) = acc.2.2 + sumSizes l := by
  intro l
  induction l with
  | nil =>
    intro acc
    simp only [mergeAdjacent]
    split
    · simp [sumSizes]
    · rename_i hz
      simp at hz
      simp [sumSizes, hz]
  | cons y ys ih =>
    intro acc
    rcases acc with ⟨i1, j1, k1⟩
    rcases y with ⟨i2, j2, k2⟩
    simp only [mergeAdjacent]
    split
    · rw [ih]
      rw [sumSizes_cons]
      dsimp only
      omega
    · split
      · rw [sumSizes_cons, ih, sumSizes_cons]
      · rename_i hz
        simp at hz
        rw [ih, sumSizes_cons]
        simp [hz]

/-- `M` as summed over `get_matching_blocks` equals the raw worklist sum. -/
theorem sumSizes_gmb_eq (a b : List Char) :
    sumSizes (get_matching_blocks a b) =
      sumSizes (gmbLoop a b (2 * (a.length + b.length) + 1)
        [(0, a.length, 0, b.length)] []) := by
  unfold get_matching_blocks
  rw [show ∀ l1 l2 : List (Nat × Nat × Nat), sumSizes (l1 ++ l2) = sumSizes l1 + sumSizes l2 by
    intro l1 l2
    simp [sumSizes]]
  rw [sumSizes_mergeAdjacent, sumSizes_sortBlocks]
  simp [sumSizes]

/-- `M ≤ len(a)`. -/
theorem matches_le_lenA (a b : List Char) :
    sumSizes (get_matching_blocks a b) ≤ a.length := by
  rw [sumSizes_gmb_eq]
  have := gmbLoop_sumA a b (2 * (a.length + b.length) + 1) [(0, a.length, 0, b.length)] []
  simpa [sumSizes] using this

/-- `M ≤ len(b)`. -/
theorem matches_le_lenB (a b : List Char) :
    sumSizes (get_matching_blocks a b) ≤ b.length := by
  rw [sumSizes_gmb_eq]
  have := gmbLoop_sumB a b (2 * (a.length + b.length) + 1) [(0, a.length, 0, b.length)] []
  simpa [sumSizes] using this

/-- `ratio` is non-negative. -/
theorem ratio_nonneg (a b : List Char) : 0 ≤ ratio a b := by
  unfold ratio
  split
  · rw [Rat.mkRat_eq_div]
    positivity
  · norm_num

/-- `ratio` is at most 1. -/
theorem ratio_le_one (a b : List Char) : ratio a b ≤ 1 := by
  unfold ratio
  split
  · rename_i hT
    rw [Rat.mkRat_eq_div]
    have hpos : (0 : ℚ) < ((a.length + b.length : Nat) : ℚ) := by
      have : 0 < a.length + b.length := Nat.pos_of_ne_zero hT
      exact_mod_cast this
    rw [div_le_one (by exact_mod_cast hpos)]
    have h1 := matches_le_lenA a b
    have h2 := matches_le_lenB a b
    have : 2 * sumSizes (get_matching_blocks a b) ≤ a.length + b.length := by omega
    exact_mod_cast this
  · norm_num

/-- `similarity` is non-negative. -/
theorem similarity_nonneg (x y : List Char) : 0 ≤ similarity x y :=
  ratio_nonneg (addrNormalise x) (addrNormalise y)

/-- `similarity` is at most 1. -/
theorem similarity_le_one (x y : List Char) : similarity x y ≤ 1 :=
  ratio_le_one (addrNormalise x) (addrNormalise y)

/-- `pyMax` agrees with the lattice `max`. -/
theorem pyMax_eq_max (x y : ℚ) : pyMax x y = max x y := by
  unfold pyMax
  split
  · rename_i h
    exact (max_eq_right (le_of_lt h)).symm
  · rename_i h
    exact (max_eq_left (le_of_not_lt h)).symm

/-- A row's score is at most 1. -/
theorem rowScore_le_one (q : List Char) (r : EpcRow) : rowScore q r ≤ 1 := by
  unfold rowScore
  rw [pyMax_eq_max, pyMax_eq_max, pyMax_eq_max]
  simp only [max_le_iff]
  exact ⟨⟨⟨similarity_le_one _ _, similarity_le_one _ _⟩, similarity_le_one _ _⟩,
    similarity_le_one _ _⟩

/-! ### C1: selection policy -/

/-- Unfolding equation for `specArgmaxFirst` on a cons cell. -/
theorem specArgmaxFirst_cons (f : EpcRow → ℚ) (x : EpcRow) (l : List EpcRow) :
    specArgmaxFirst f (x :: l) =
      match specArgmaxFirst f l with
      | none => some x
      | some r2 => if f x < f r2 then some r2 else some x := rfl

/-- Any value returned by `specArgmaxFirst` is a member of the list. -/
theorem specArgmaxFirst_mem (f : EpcRow → ℚ) :
    ∀ (l : List EpcRow) (v : EpcRow), specArgmaxFirst f l = some v → v ∈ l := by
  intro l
  induction l with
  | nil => intro v h; cases h
  | cons x xs ih =>
    intro v h
    rw [specArgmaxFirst_cons] at h
    rcases hx : specArgmaxFirst f xs with _ | r2 <;> rw [hx] at h
    · cases h; exact List.mem_cons_self x xs
    · dsimp only at h
      by_cases hlt : f x < f r2
      · rw [if_pos hlt] at h
        cases h
        exact List.mem_cons_of_mem x (ih _ hx)
      · rw [if_neg hlt] at h
        cases h
        exact List.mem_cons_self x xs

/-- The value returned by `specArgmaxFirst` scores at least as high as the head of the list. -/
theorem specArgmaxFirst_ge_head (f : EpcRow → ℚ) (x : EpcRow) (l : List EpcRow) (v : EpcRow)
    (h : specArgmaxFirst f (x :: l) = some v) : f x ≤ f v := by
  rw [specArgmaxFirst_cons] at h
  rcases hx : specArgmaxFirst f l with _ | r2 <;> rw [hx] at h
  · cases h; exact le_refl _
  · dsimp only at h
    by_cases hlt : f x < f r2
    · rw [if_pos hlt] at h
      cases h
      exact le_of_lt hlt
    · rw [if_neg hlt] at h
      cases h
      exact le_refl _

/-- On a non-empty list `specArgmaxFirst` returns some value. -/
theorem specArgmaxFirst_isSome (f : EpcRow → ℚ) (x : EpcRow) (l : List EpcRow) :
    ∃ v, specArgmaxFirst f (x :: l) = some v := by
  rw [specArgmaxFirst_cons]
  rcases hx : specArgmaxFirst f l with _ | r2
  · exact ⟨x, rfl⟩
  · dsimp only
    by_cases hlt : f x < f r2
    · rw [if_pos hlt]; exact ⟨r2, rfl⟩
    · rw [if_neg hlt]; exact ⟨x, rfl⟩

/-- An element scoring no higher than an earlier element can be dropped without changing the first-biased argmax. -/
theorem specArgmaxFirst_drop_le (f : EpcRow → ℚ) (r0 r : EpcRow) (l : List EpcRow)
    (h : f r ≤ f r0) :
    specArgmaxFirst f (r0 :: r :: l) = specArgmaxFirst f (r0 :: l) := by
  rw [specArgmaxFirst_cons f r0 (r :: l), specArgmaxFirst_cons f r l,
    specArgmaxFirst_cons f r0 l]
  rcases hx : specArgmaxFirst f l with _ | w
  · dsimp only
    rw [if_neg (not_lt.mpr h)]
  · dsimp only
    by_cases hw : f r < f w
    · rw [if_pos hw]
    · rw [if_neg hw]
      dsimp only
      rw [if_neg (not_lt.mpr h), if_neg (not_lt.mpr (le_trans (not_lt.mp hw) h))]

/-- When the head attains the global maximum of `f`, the first-biased argmax is the head. -/
theorem specArgmaxFirst_head_max (f : EpcRow → ℚ) (x : EpcRow) (l : List EpcRow)
    (hmax : ∀ w, f w ≤ f x) : specArgmaxFirst f (x :: l) = some x := by
  rw [specArgmaxFirst_cons]
  rcases hx : specArgmaxFirst f l with _ | w
  · rfl
  · dsimp only
    rw [if_neg (not_lt.mpr (hmax w))]

/-- The candidate-scan loop of `lookup_uprn`, started from either the empty best state or a best state corresponding to a previously accepted row `r0`, computes exactly the first-biased argmax of the row score over the threshold-filtered candidates. -/
theorem lookupLoop_spec_aux (t : ℚ) (q : List Char) :
    ∀ (rows : List EpcRow),
      (∀ r ∈ rows, (pyInt r.uprn_str).isSome = true) →
      (lookupLoop t q rows none =
        (specArgmaxFirst (rowScore q)
            (rows.filter (fun r => decide (t ≤ rowScore q r)))).map
          (fun r => ((pyInt r.uprn_str).getD 0, pyOrStr r.addr_full (pyOrStr r.addr1 []),
            rowScore q r))) ∧
      (∀ r0, lookupLoop t q rows (some ((pyInt r0.uprn_str).getD 0,
            pyOrStr r0.addr_full (pyOrStr r0.addr1 []), rowScore q r0)) =
          (specArgmaxFirst (rowScore q)
              (r0 :: rows.filter (fun r => decide (t ≤ rowScore q r)))).map
            (fun r => ((pyInt r.uprn_str).getD 0, pyOrStr r.addr_full (pyOrStr r.addr1 []),
              rowScore q r))) := by
  intro rows
  induction rows with
  | nil =>
    intro hparse
    constructor
    · rfl
    · intro r0
      rfl
  | cons r rs ih =>
    intro hparse
    have hr := hparse r (List.mem_cons_self r rs)
    obtain ⟨u, hu⟩ := Option.isSome_iff_exists.mp hr
    have ihs := ih (fun r2 h2 => hparse r2 (List.mem_cons_of_mem r h2))
    by_cases hth : t ≤ rowScore q r
    · have hfc : (List.filter (fun r => decide (t ≤ rowScore q r)) (r :: rs)) =
          r :: List.filter (fun r => decide (t ≤ rowScore q r)) rs := by
        rw [List.filter_cons]
        simp [hth]
      constructor
      · -- state none: accepted
        simp only [lookupLoop, hu]
        rw [if_pos (by simp [hth])]
        rw [hfc]
        by_cases h1 : rowScore q r = 1
        · rw [if_pos h1]
          rw [specArgmaxFirst_head_max (rowScore q) r _
            (fun w => by rw [h1]; exact rowScore_le_one q w)]
          simp [hu]
        · rw [if_neg h1]
          have := ihs.2 r
          rw [hu] at this
          simpa [hu] using this
      · -- state some r0
        intro r0
        simp only [lookupLoop, hu]
        by_cases hacc : rowScore q r0 < rowScore q r
        · rw [if_pos (by simp [hth, hacc])]
          rw [hfc]
          by_cases h1 : rowScore q r = 1
          · rw [if_pos h1]
            rw [specArgmaxFirst_cons (rowScore q) r0,
              specArgmaxFirst_head_max (rowScore q) r _
                (fun w => by rw [h1]; exact rowScore_le_one q w)]
            dsimp only
            rw [if_pos hacc]
            simp [hu]
          · rw [if_neg h1]
            have hihr := ihs.2 r
            rw [hu] at hihr
            simp only [Option.getD_some] at hihr
            rw [hihr]
            obtain ⟨v, hv⟩ := specArgmaxFirst_isSome (rowScore q) r
              (List.filter (fun r => decide (t ≤ rowScore q r)) rs)
            rw [specArgmaxFirst_cons (rowScore q) r0, hv]
            dsimp only
            rw [if_pos (lt_of_lt_of_le hacc (specArgmaxFirst_ge_head _ _ _ _ hv))]
        · rw [if_neg (by simp [hth, hacc])]
          rw [hfc]
          rw [specArgmaxFirst_drop_le _ _ _ _ (not_lt.mp hacc)]
          exact ihs.2 r0
    · have hfc : (List.filter (fun r => decide (t ≤ rowScore q r)) (r :: rs)) =
          List.filter (fun r => decide (t ≤ rowScore q r)) rs := by
        rw [List.filter_cons]
        simp [hth]
      constructor
      · simp only [lookupLoop]
        rw [if_neg (by simp [hth])]
        rw [hfc]
        exact ihs.1
      · intro r0
        simp only [lookupLoop]
        rw [if_neg (by simp [hth])]
        rw [hfc]
        exact ihs.2 r0

/-- **C1.** For every candidate-row list (whose raw UPRN fields all parse as integers), `lookup_uprn` selects the row with the highest per-row score `rowScore` (the maximum per-column similarity against the normalized query) among rows meeting or exceeding the threshold, keeping the first-seen row on exact ties (a later row wins only with a strictly higher score); and when an accepted row scores exactly 1 the scan stops immediately: the loop result does not depend on the rows after it. -/
theorem c1_selection_policy (t : ℚ) (address_line : List Char) (rows : List EpcRow)
    (hparse : ∀ r ∈ rows, (pyInt r.uprn_str).isSome = true) :
    lookup_uprn t address_line rows =
      (specSelect t (addrNormalise address_line) rows).map
        (fun r => ((pyInt r.uprn_str).getD 0,
          pyOrStr r.addr_full (pyOrStr r.addr1 []),
          rowScore (addrNormalise address_line) r)) ∧
    (∀ (r : EpcRow) (rs1 rs2 : List EpcRow) (b : Option (Int × List Char × ℚ)),
      (pyInt r.uprn_str).isSome = true →
      t ≤ rowScore (addrNormalise address_line) r →
      (b = none ∨ ∃ u0 m0 s0, b = some (u0, m0, s0) ∧
        s0 < rowScore (addrNormalise address_line) r) →
      rowScore (addrNormalise address_line) r = 1 →
      lookupLoop t (addrNormalise address_line) (r :: rs1) b =
        lookupLoop t (addrNormalise address_line) (r :: rs2) b) := by
  constructor
  · exact (lookupLoop_spec_aux t (addrNormalise address_line) rows hparse).1
  · intro r rs1 rs2 b hps hth hb h1
    obtain ⟨u, hu⟩ := Option.isSome_iff_exists.mp hps
    rcases hb with hb | ⟨u0, m0, s0, hb, hlt⟩
    · subst hb
      simp only [lookupLoop, hu]
      have hc : (decide (t ≤ rowScore (addrNormalise address_line) r) && true) = true := by
        simp [hth]
      rw [if_pos hc, if_pos h1, if_pos hc, if_pos h1]
    · subst hb
      simp only [lookupLoop, hu]
      have hc : (decide (t ≤ rowScore (addrNormalise address_line) r) &&
          decide ((u0, m0, s0).2.2 < rowScore (addrNormalise address_line) r)) = true := by
        simp [hth, hlt]
      rw [if_pos hc, if_pos h1, if_pos hc, if_pos h1]

/-- Witness for `c1_selection_policy` on two concrete Downing Street rows at the default threshold. -/
theorem c1_selection_policy_witness :
    (∀ r ∈ ([⟨"100023336957".toList, some ("11 DOWNING STREET".toList), none, none,
          some ("11 DOWNING STREET".toList)⟩,
        ⟨"100023336956".toList, some ("10 DOWNING STREET".toList), none, none,
          some ("10 DOWNING STREET".toList)⟩] : List EpcRow),
      (pyInt r.uprn_str).isSome = true) ∧
    (lookup_uprn defaultThreshold ("10 Downing Street".toList)
        [⟨"100023336957".toList, some ("11 DOWNING STREET".toList), none, none,
            some ("11 DOWNING STREET".toList)⟩,
          ⟨"100023336956".toList, some ("10 DOWNING STREET".toList), none, none,
            some ("10 DOWNING STREET".toList)⟩] =
        (specSelect defaultThreshold (addrNormalise ("10 Downing Street".toList))
            [⟨"100023336957".toList, some ("11 DOWNING STREET".toList), none, none,
                some ("11 DOWNING STREET".toList)⟩,
              ⟨"100023336956".toList, some ("10 DOWNING STREET".toList), none, none,
                some ("10 DOWNING STREET".toList)⟩]).map
          (fun r => ((pyInt r.uprn_str).getD 0,
            pyOrStr r.addr_full (pyOrStr r.addr1 []),
            rowScore (addrNormalise ("10 Downing Street".toList)) r)) ∧
      (∀ (r : EpcRow) (rs1 rs2 : List EpcRow) (b : Option (Int × List Char × ℚ)),
        (pyInt r.uprn_str).isSome = true →
        defaultThreshold ≤ rowScore (addrNormalise ("10 Downing Street".toList)) r →
        (b = none ∨ ∃ u0 m0 s0, b = some (u0, m0, s0) ∧
          s0 < rowScore (addrNormalise ("10 Downing Street".toList)) r) →
        rowScore (addrNormalise ("10 Downing Street".toList)) r = 1 →
        lookupLoop defaultThreshold (addrNormalise ("10 Downing Street".toList)) (r :: rs1) b =
          lookupLoop defaultThreshold (addrNormalise ("10 Downing Street".toList)) (r :: rs2) b)) :=
  ⟨by decide, c1_selection_policy defaultThreshold ("10 Downing Street".toList) _ (by decide)⟩

/-! ### C10: empty-normalising queries -/

/-- **C10 (amended).** `similarity` of two strings that both normalise to empty is 1; consequently, with an address line that normalises to empty, a candidate row with an empty or NULL address column scores exactly 1, and - provided its raw UPRN parses as an integer - the scan accepts it and stops there, returning it as a perfect match independently of the remaining rows.  (The unamended claim is refuted by `c10_empty_query_cex`: a first such row whose UPRN does not parse is skipped, not short-circuited on.) -/
theorem c10_empty_query (t : ℚ) (address_line : List Char) (r : EpcRow) (u : Int)
    (ht : t ≤ 1) (hq : addrNormalise address_line = [])
    (hr : hasEmptyAddrCol r = true) (hu : pyInt r.uprn_str = some u) :
    (∀ x y : List Char, addrNormalise x = [] → addrNormalise y = [] →
      similarity x y = 1) ∧
    rowScore (addrNormalise address_line) r = 1 ∧
    (∀ (best : Option (Int × List Char × ℚ)),
      (best = none ∨ ∃ u0 m0 s0, best = some (u0, m0, s0) ∧ s0 < 1) →
      ∀ rest : List EpcRow,
        lookupLoop t (addrNormalise address_line) (r :: rest) best =
          some (u, pyOrStr r.addr_full (pyOrStr r.addr1 []), 1)) := by
  have hsim : ∀ x y : List Char, addrNormalise x = [] → addrNormalise y = [] →
      similarity x y = 1 := by
    intro x y hx hy
    unfold similarity
    rw [hx, hy]
    decide
  have hone : similarity [] [] = 1 := by decide
  have h2' : rowScore [] r = 1 := by
    refine le_antisymm (rowScore_le_one _ _) ?_
    simp only [hasEmptyAddrCol, Bool.or_eq_true, List.isEmpty_iff] at hr
    unfold rowScore
    rw [pyMax_eq_max, pyMax_eq_max, pyMax_eq_max, le_max_iff, le_max_iff, le_max_iff]
    rcases hr with ((h1 | h2) | h3) | h4
    · exact Or.inl (Or.inl (Or.inl (by rw [h1]; exact le_of_eq hone.symm)))
    · exact Or.inl (Or.inl (Or.inr (by rw [h2]; exact le_of_eq hone.symm)))
    · exact Or.inl (Or.inr (by rw [h3]; exact le_of_eq hone.symm))
    · exact Or.inr (by rw [h4]; exact le_of_eq hone.symm)
  refine ⟨hsim, by rw [hq]; exact h2', ?_⟩
  intro best hb rest
  rw [hq]
  rcases hb with hb | ⟨u0, m0, s0, hb, hs⟩ <;> subst hb
  · simp only [lookupLoop, hu]
    have hc : (decide (t ≤ rowScore [] r) && true) = true := by
      rw [h2']
      simp [ht]
    rw [if_pos hc, if_pos h2', h2']
  · simp only [lookupLoop, hu]
    have hc : (decide (t ≤ rowScore [] r) &&
        decide ((u0, m0, s0).2.2 < rowScore [] r)) = true := by
      rw [h2']
      simp [ht, hs]
    rw [if_pos hc, if_pos h2', h2']

/-- Witness for `c10_empty_query`: the comma-only address line `" , "` against a row whose four address columns are all NULL, at the default threshold. -/
theorem c10_empty_query_witness :
    (defaultThreshold ≤ (1 : ℚ)) ∧
    addrNormalise (" , ".toList) = [] ∧
    hasEmptyAddrCol ⟨"100023336956".toList, none, none, none, none⟩ = true ∧
    pyInt ("100023336956".toList) = some 100023336956 ∧
    ((∀ x y : List Char, addrNormalise x = [] → addrNormalise y = [] →
        similarity x y = 1) ∧
      rowScore (addrNormalise (" , ".toList))
          ⟨"100023336956".toList, none, none, none, none⟩ = 1 ∧
      (∀ (best : Option (Int × List Char × ℚ)),
        (best = none ∨ ∃ u0 m0 s0, best = some (u0, m0, s0) ∧ s0 < 1) →
        ∀ rest : List EpcRow,
          lookupLoop defaultThreshold (addrNormalise (" , ".toList))
              (⟨"100023336956".toList, none, none, none, none⟩ :: rest) best =
            some (100023336956,
              pyOrStr (⟨"100023336956".toList, none, none, none, none⟩ : EpcRow).addr_full
                (pyOrStr (⟨"100023336956".toList, none, none, none, none⟩ : EpcRow).addr1 []),
              1))) :=
  ⟨by decide, by decide, by decide, by decide,
    c10_empty_query defaultThreshold (" , ".toList) _ 100023336956
      (by decide) (by decide) (by decide) (by decide)⟩

/-! ### C4: postcode normalisation idempotence -/

/-- `str.upper` preserves the `[A-Z]`-with-IGNORECASE character class. -/
theorem upper_letter (c : Char) (h : isReLetter c = true) :
    isReLetter (pyUpperChar c) = true := by
  simp only [isReLetter, Bool.or_eq_true, Bool.and_eq_true, decide_eq_true_eq] at h ⊢
  unfold pyUpperChar
  split
  · rename_i hcond
    simp only [Bool.and_eq_true, decide_eq_true_eq] at hcond
    rw [charToNat_ofNat _ (by omega)]
    omega
  · rename_i hcond
    simp only [Bool.and_eq_true, decide_eq_true_eq, not_and, not_le] at hcond
    omega

/-- `str.upper` fixes ASCII digits. -/
theorem upper_digit (c : Char) (h : isReDigit c = true) : pyUpperChar c = c := by
  simp only [isReDigit, Bool.and_eq_true, decide_eq_true_eq] at h
  unfold pyUpperChar
  split
  · rename_i hcond
    simp only [Bool.and_eq_true, decide_eq_true_eq] at hcond
    omega
  · rfl

/-- `str.upper` is idempotent on characters. -/
theorem upper_idem (c : Char) : pyUpperChar (pyUpperChar c) = pyUpperChar c := by
  unfold pyUpperChar
  split
  · rename_i hcond
    simp only [Bool.and_eq_true, decide_eq_true_eq] at hcond
    rw [charToNat_ofNat _ (by omega)]
    split
    · rename_i h2
      simp only [Bool.and_eq_true, decide_eq_true_eq] at h2
      omega
    · rfl
  · rfl

/-- A regex letter is not the space character. -/
theorem letter_ne_space (c : Char) (h : isReLetter c = true) : ¬(c = ' ') := by
  intro he
  rw [he] at h
  exact absurd h (by decide)

/-- A regex digit is not the space character. -/
theorem digit_ne_space (c : Char) (h : isReDigit c = true) : ¬(c = ' ') := by
  intro he
  rw [he] at h
  exact absurd h (by decide)

/-- A regex letter is not Python whitespace. -/
theorem letter_not_pyspace (c : Char) (h : isReLetter c = true) : isPySpace c = false := by
  simp only [isReLetter, Bool.or_eq_true, Bool.and_eq_true, decide_eq_true_eq] at h
  rw [Bool.eq_false_iff]
  intro hsp
  simp only [isPySpace, Bool.or_eq_true, Bool.and_eq_true, decide_eq_true_eq,
    beq_iff_eq] at hsp
  omega

/-- Shape of a string accepted by the `\d[A-Z]\x7b2\x7d$` tail matcher. -/
theorem matchEnd_decomp (r : List Char) (h : matchEnd r = true) :
    ∃ d x y, r = [d, x, y] ∧ isReDigit d = true ∧ isReLetter x = true ∧
      isReLetter y = true := by
  rcases r with _ | ⟨d, _ | ⟨x, _ | ⟨y, _ | ⟨z, r4⟩⟩⟩⟩
  · exact absurd h (by simp [matchEnd])
  · exact absurd h (by simp [matchEnd])
  · exact absurd h (by simp [matchEnd])
  · simp only [matchEnd, Bool.and_eq_true] at h
    exact ⟨d, x, y, rfl, h.1.1, h.1.2, h.2⟩
  · exact absurd h (by simp [matchEnd])

/-- Shape of a string accepted by `\s?\d[A-Z]\x7b2\x7d$`. -/
theorem matchSpOpt_decomp (r : List Char) (h : matchSpOpt r = true) :
    ∃ w d x y, r = w ++ [d, x, y] ∧
      (w = [] ∨ ∃ ws, w = [ws] ∧ isPySpace ws = true) ∧
      isReDigit d = true ∧ isReLetter x = true ∧ isReLetter y = true := by
  simp only [matchSpOpt, Bool.or_eq_true] at h
  rcases h with h | h
  · obtain ⟨d, x, y, hr, hd, hx, hy⟩ := matchEnd_decomp r h
    exact ⟨[], d, x, y, hr, Or.inl rfl, hd, hx, hy⟩
  · rcases r with _ | ⟨c, cs⟩
    · exact absurd h (by simp)
    · simp only [Bool.and_eq_true] at h
      obtain ⟨d, x, y, hr, hd, hx, hy⟩ := matchEnd_decomp cs h.2
      exact ⟨[c], d, x, y, by rw [hr]; rfl, Or.inr ⟨c, rfl, h.1⟩, hd, hx, hy⟩

/-- Shape of a string accepted by `[A-Z\d]?\s?\d[A-Z]\x7b2\x7d$`. -/
theorem matchAlnumOpt_decomp (r : List Char) (h : matchAlnumOpt r = true) :
    ∃ mid w d x y, r = mid ++ w ++ [d, x, y] ∧
      (mid = [] ∨ ∃ a, mid = [a] ∧ (isReLetter a || isReDigit a) = true) ∧
      (w = [] ∨ ∃ ws, w = [ws] ∧ isPySpace ws = true) ∧
      isReDigit d = true ∧ isReLetter x = true ∧ isReLetter y = true := by
  simp only [matchAlnumOpt, Bool.or_eq_true] at h
  rcases h with h | h
  · obtain ⟨w, d, x, y, hr, hw, hd, hx, hy⟩ := matchSpOpt_decomp r h
    exact ⟨[], w, d, x, y, hr, Or.inl rfl, hw, hd, hx, hy⟩
  · rcases r with _ | ⟨c, cs⟩
    · exact absurd h (by simp)
    · simp only [Bool.and_eq_true] at h
      obtain ⟨w, d, x, y, hr, hw, hd, hx, hy⟩ := matchSpOpt_decomp cs h.2
      exact ⟨[c], w, d, x, y, by rw [hr]; rfl, Or.inr ⟨c, rfl, h.1⟩, hw, hd, hx, hy⟩

/-- Shape of a string accepted by `\d[A-Z\d]?\s?\d[A-Z]\x7b2\x7d$`. -/
theorem matchTail_decomp (r : List Char) (h : matchTail r = true) :
    ∃ d1 mid w d x y, r = d1 :: (mid ++ w ++ [d, x, y]) ∧ isReDigit d1 = true ∧
      (mid = [] ∨ ∃ a, mid = [a] ∧ (isReLetter a || isReDigit a) = true) ∧
      (w = [] ∨ ∃ ws, w = [ws] ∧ isPySpace ws = true) ∧
      isReDigit d = true ∧ isReLetter x = true ∧ isReLetter y = true := by
  rcases r with _ | ⟨d1, rest⟩
  · exact absurd h (by simp [matchTail])
  · simp only [matchTail, Bool.and_eq_true] at h
    obtain ⟨mid, w, d, x, y, hr, hmid, hw, hd, hx, hy⟩ := matchAlnumOpt_decomp rest h.2
    exact ⟨d1, mid, w, d, x, y, by rw [hr], h.1, hmid, hw, hd, hx, hy⟩

/-- Shape of a string accepted by the full UK-postcode pattern: a 2-4 character outward prefix, an optional single whitespace character, and a `digit letter letter` tail. -/
theorem matchUKPostcode_decomp (s : List Char) (h : matchUKPostcode s = true) :
    ∃ p w d x y, s = p ++ w ++ [d, x, y] ∧ pcPrefixOK p = true ∧
      (w = [] ∨ ∃ ws, w = [ws] ∧ isPySpace ws = true) ∧
      isReDigit d = true ∧ isReLetter x = true ∧ isReLetter y = true := by
  rcases s with _ | ⟨c1, rest⟩
  · exact absurd h (by simp [matchUKPostcode])
  · simp only [matchUKPostcode, Bool.and_eq_true, Bool.or_eq_true] at h
    obtain ⟨hc1, h⟩ := h
    have build : ∀ (pre : List Char) (hpre : pre = [c1] ∧ True ∨
        ∃ c2, pre = [c1, c2] ∧ isReLetter c2 = true) (r2 : List Char)
        (hmt : matchTail r2 = true),
        ∃ p w d x y, (pre ++ r2 : List Char) = p ++ w ++ [d, x, y] ∧
          pcPrefixOK p = true ∧
          (w = [] ∨ ∃ ws, w = [ws] ∧ isPySpace ws = true) ∧
          isReDigit d = true ∧ isReLetter x = true ∧ isReLetter y = true := by
      intro pre hpre r2 hmt
      obtain ⟨d1, mid, w, d, x, y, hr, hd1, hmid, hw, hd, hx, hy⟩ := matchTail_decomp r2 hmt
      rcases hpre with ⟨hpe, -⟩ | ⟨c2, hpe, hc2⟩ <;> subst hpe <;> subst hr
      · rcases hmid with hm0 | ⟨a, hma, ha⟩
        · subst hm0
          refine ⟨[c1, d1], w, d, x, y, rfl, ?_, hw, hd, hx, hy⟩
          simp [pcPrefixOK, hc1, hd1]
        · subst hma
          refine ⟨[c1, d1, a], w, d, x, y, rfl, ?_, hw, hd, hx, hy⟩
          simp only [Bool.or_eq_true] at ha
          simp [pcPrefixOK, hc1, hd1, ha]
      · rcases hmid with hm0 | ⟨a, hma, ha⟩
        · subst hm0
          refine ⟨[c1, c2, d1], w, d, x, y, rfl, ?_, hw, hd, hx, hy⟩
          simp [pcPrefixOK, hc1, hc2, hd1]
        · subst hma
          refine ⟨[c1, c2, d1, a], w, d, x, y, rfl, ?_, hw, hd, hx, hy⟩
          simp only [Bool.or_eq_true] at ha
          simp [pcPrefixOK, hc1, hc2, hd1, ha]
    rcases h with h | h
    · exact build [c1] (Or.inl ⟨rfl, trivial⟩) rest h
    · rcases rest with _ | ⟨c2, r2⟩
      · exact absurd h (by simp)
      · simp only [Bool.and_eq_true] at h
        have := build [c1, c2] (Or.inr ⟨c2, rfl, h.1⟩) r2 h.2
        simpa using this

/-- On validated input, `pcNormalise` takes the ok branch. -/
theorem pcNormalise_eq_of_validate (raw : List Char) (hv : pcValidate raw = true) :
    pcNormalise raw = Except.ok
      (let stripped := ((pyStrip raw).map pyUpperChar).filter (fun c => c ≠ ' ')
       stripped.take (stripped.length - 3) ++
         ' ' :: stripped.drop (stripped.length - 3)) := by
  unfold pcNormalise
  rw [if_pos hv]

/-- Core of the idempotence argument: on a validated input whose stripped form decomposes per the postcode grammar with the optional whitespace being a plain space (or absent), `pcNormalise` succeeds and its output is a fixed point of `pcNormalise`. -/
theorem pcNormalise_shape_fix (raw : List Char) (p w : List Char) (d x y : Char)
    (hv : pcValidate raw = true)
    (hs : pyStrip raw = p ++ w ++ [d, x, y])
    (hp : pcPrefixOK p = true)
    (hw : w = [] ∨ w = [' '])
    (hd : isReDigit d = true) (hx : isReLetter x = true) (hy : isReLetter y = true) :
    ∃ out, pcNormalise raw = Except.ok out ∧ pcNormalise out = Except.ok out := by
  have hwnil : (w.map pyUpperChar).filter (fun c => c ≠ ' ') = [] := by
    rcases hw with h | h <;> subst h <;> decide
  have hdfix : pyUpperChar d = d := upper_digit d hd
  have hdne : ¬(d = ' ') := digit_ne_space d hd
  have hX := upper_letter x hx
  have hY := upper_letter y hy
  have hXne := letter_ne_space _ hX
  have hYne := letter_ne_space _ hY
  have hYsp := letter_not_pyspace _ hY
  have hspS : isPySpace ' ' = true := by decide
  have hspL : isReLetter ' ' = false := by decide
  have hspD : isReDigit ' ' = false := by decide
  have hspU : pyUpperChar ' ' = ' ' := by decide
  rcases p with _ | ⟨c1, p⟩
  · exact absurd hp (by simp [pcPrefixOK])
  rcases p with _ | ⟨c2, p⟩
  · exact absurd hp (by simp [pcPrefixOK])
  rcases p with _ | ⟨c3, p⟩
  · -- p = [c1, c2] : letter, digit
    simp only [pcPrefixOK, Bool.and_eq_true] at hp
    obtain ⟨hc1, hc2⟩ := hp
    have hC1 := upper_letter c1 hc1
    have hC1ne := letter_ne_space _ hC1
    have hC1sp := letter_not_pyspace _ hC1
    have hc2fix := upper_digit c2 hc2
    have hc2ne := digit_ne_space c2 hc2
    refine ⟨[pyUpperChar c1, c2, ' ', d, pyUpperChar x, pyUpperChar y], ?_, ?_⟩
    · have hstr : ((pyStrip raw).map pyUpperChar).filter (fun c => c ≠ ' ') =
          [pyUpperChar c1, c2, d, pyUpperChar x, pyUpperChar y] := by
        rw [hs]
        rw [List.map_append, List.map_append, List.filter_append, List.filter_append,
          hwnil]
        simp [hc2fix, hdfix, hC1ne, hc2ne, hdne, hXne, hYne]
      rw [pcNormalise_eq_of_validate raw hv, hstr]
      rfl
    · have hstrip : pyStrip ([pyUpperChar c1, c2, ' ', d, pyUpperChar x,
          pyUpperChar y] : List Char) =
          [pyUpperChar c1, c2, ' ', d, pyUpperChar x, pyUpperChar y] := by
        simp [pyStrip, List.dropWhile, hC1sp, hYsp]
      have hv2 : pcValidate ([pyUpperChar c1, c2, ' ', d, pyUpperChar x,
          pyUpperChar y] : List Char) = true := by
        unfold pcValidate
        rw [hstrip]
        simp [matchUKPostcode, matchTail, matchAlnumOpt, matchSpOpt, matchEnd,
          hC1, hc2, hd, hX, hY, hspS, hspL, hspD]
      have hstr2 : ((pyStrip ([pyUpperChar c1, c2, ' ', d, pyUpperChar x,
            pyUpperChar y] : List Char)).map pyUpperChar).filter (fun c => c ≠ ' ') =
          [pyUpperChar c1, c2, d, pyUpperChar x, pyUpperChar y] := by
        rw [hstrip]
        simp [upper_idem, hc2fix, hdfix, hspU, hC1ne, hc2ne, hdne, hXne, hYne]
      rw [pcNormalise_eq_of_validate _ hv2, hstr2]
      rfl
  rcases p with _ | ⟨c4, p⟩
  · -- p = [c1, c2, c3] : letter then (letter digit | digit alnum)
    simp only [pcPrefixOK, Bool.and_eq_true, Bool.or_eq_true] at hp
    obtain ⟨hc1, hp⟩ := hp
    have hC1 := upper_letter c1 hc1
    have hC1ne := letter_ne_space _ hC1
    have hC1sp := letter_not_pyspace _ hC1
    rcases hp with ⟨hc2, hc3⟩ | ⟨hc2, hc3⟩
    · -- letter letter digit
      have hC2 := upper_letter c2 hc2
      have hC2ne := letter_ne_space _ hC2
      have hc3fix := upper_digit c3 hc3
      have hc3ne := digit_ne_space c3 hc3
      refine ⟨[pyUpperChar c1, pyUpperChar c2, c3, ' ', d, pyUpperChar x,
        pyUpperChar y], ?_, ?_⟩
      · have hstr : ((pyStrip raw).map pyUpperChar).filter (fun c => c ≠ ' ') =
            [pyUpperChar c1, pyUpperChar c2, c3, d, pyUpperChar x, pyUpperChar y] := by
          rw [hs]
          rw [List.map_append, List.map_append, List.filter_append, List.filter_append,
            hwnil]
          simp [hc3fix, hdfix, hC1ne, hC2ne, hc3ne, hdne, hXne, hYne]
        rw [pcNormalise_eq_of_validate raw hv, hstr]
        rfl
      · have hstrip : pyStrip ([pyUpperChar c1, pyUpperChar c2, c3, ' ', d,
            pyUpperChar x, pyUpperChar y] : List Char) =
            [pyUpperChar c1, pyUpperChar c2, c3, ' ', d, pyUpperChar x,
              pyUpperChar y] := by
          simp [pyStrip, List.dropWhile, hC1sp, hYsp]
        have hv2 : pcValidate ([pyUpperChar c1, pyUpperChar c2, c3, ' ', d,
            pyUpperChar x, pyUpperChar y] : List Char) = true := by
          unfold pcValidate
          rw [hstrip]
          simp [matchUKPostcode, matchTail, matchAlnumOpt, matchSpOpt, matchEnd,
            hC1, hC2, hc3, hd, hX, hY, hspS, hspL, hspD]
        have hstr2 : ((pyStrip ([pyUpperChar c1, pyUpperChar c2, c3, ' ', d,
              pyUpperChar x, pyUpperChar y] : List Char)).map pyUpperChar).filter
              (fun c => c ≠ ' ') =
            [pyUpperChar c1, pyUpperChar c2, c3, d, pyUpperChar x, pyUpperChar y] := by
          rw [hstrip]
          simp [upper_idem, hc3fix, hdfix, hspU, hC1ne, hC2ne, hc3ne, hdne, hXne, hYne]
        rw [pcNormalise_eq_of_validate _ hv2, hstr2]
        rfl
    · -- letter digit alnum
      have hc2fix := upper_digit c2 hc2
      have hc2ne := digit_ne_space c2 hc2
      rcases hc3 with hc3 | hc3
      · -- third char a letter
        have hC3 := upper_letter c3 hc3
        have hC3ne := letter_ne_space _ hC3
        refine ⟨[pyUpperChar c1, c2, pyUpperChar c3, ' ', d, pyUpperChar x,
          pyUpperChar y], ?_, ?_⟩
        · have hstr : ((pyStrip raw).map pyUpperChar).filter (fun c => c ≠ ' ') =
              [pyUpperChar c1, c2, pyUpperChar c3, d, pyUpperChar x, pyUpperChar y] := by
            rw [hs]
            rw [List.map_append, List.map_append, List.filter_append, List.filter_append,
              hwnil]
            simp [hc2fix, hdfix, hC1ne, hc2ne, hC3ne, hdne, hXne, hYne]
          rw [pcNormalise_eq_of_validate raw hv, hstr]
          rfl
        · have hstrip : pyStrip ([pyUpperChar c1, c2, pyUpperChar c3, ' ', d,
              pyUpperChar x, pyUpperChar y] : List Char) =
              [pyUpperChar c1, c2, pyUpperChar c3, ' ', d, pyUpperChar x,
                pyUpperChar y] := by
            simp [pyStrip, List.dropWhile, hC1sp, hYsp]
          have hv2 : pcValidate ([pyUpperChar c1, c2, pyUpperChar c3, ' ', d,
              pyUpperChar x, pyUpperChar y] : List Char) = true := by
            unfold pcValidate
            rw [hstrip]
            simp [matchUKPostcode, matchTail, matchAlnumOpt, matchSpOpt, matchEnd,
              hC1, hc2, hC3, hd, hX, hY, hspS, hspL, hspD]
          have hstr2 : ((pyStrip ([pyUpperChar c1, c2, pyUpperChar c3, ' ', d,
                pyUpperChar x, pyUpperChar y] : List Char)).map pyUpperChar).filter
                (fun c => c ≠ ' ') =
              [pyUpperChar c1, c2, pyUpperChar c3, d, pyUpperChar x, pyUpperChar y] := by
            rw [hstrip]
            simp [upper_idem, hc2fix, hdfix, hspU, hC1ne, hc2ne, hC3ne, hdne, hXne, hYne]
          rw [pcNormalise_eq_of_validate _ hv2, hstr2]
          rfl
      · -- third char a digit
        have hc3fix := upper_digit c3 hc3
        have hc3ne := digit_ne_space c3 hc3
        refine ⟨[pyUpperChar c1, c2, c3, ' ', d, pyUpperChar x, pyUpperChar y], ?_, ?_⟩
        · have hstr : ((pyStrip raw).map pyUpperChar).filter (fun c => c ≠ ' ') =
              [pyUpperChar c1, c2, c3, d, pyUpperChar x, pyUpperChar y] := by
            rw [hs]
            rw [List.map_append, List.map_append, List.filter_append, List.filter_append,
              hwnil]
            simp [hc2fix, hc3fix, hdfix, hC1ne, hc2ne, hc3ne, hdne, hXne, hYne]
          rw [pcNormalise_eq_of_validate raw hv, hstr]
          rfl
        · have hstrip : pyStrip ([pyUpperChar c1, c2, c3, ' ', d, pyUpperChar x,
              pyUpperChar y] : List Char) =
              [pyUpperChar c1, c2, c3, ' ', d, pyUpperChar x, pyUpperChar y] := by
            simp [pyStrip, List.dropWhile, hC1sp, hYsp]
          have hv2 : pcValidate ([pyUpperChar c1, c2, c3, ' ', d, pyUpperChar x,
              pyUpperChar y] : List Char) = true := by
            unfold pcValidate
            rw [hstrip]
            simp [matchUKPostcode, matchTail, matchAlnumOpt, matchSpOpt, matchEnd,
              hC1, hc2, hc3, hd, hX, hY, hspS, hspL, hspD]
          have hstr2 : ((pyStrip ([pyUpperChar c1, c2, c3, ' ', d, pyUpperChar x,
                pyUpperChar y] : List Char)).map pyUpperChar).filter
                (fun c => c ≠ ' ') =
              [pyUpperChar c1, c2, c3, d, pyUpperChar x, pyUpperChar y] := by
            rw [hstrip]
            simp [upper_idem, hc2fix, hc3fix, hdfix, hspU, hC1ne, hc2ne, hc3ne, hdne,
              hXne, hYne]
          rw [pcNormalise_eq_of_validate _ hv2, hstr2]
          rfl
  rcases p with _ | ⟨c5, p⟩
  · -- p = [c1, c2, c3, c4] : letter letter digit alnum
    simp only [pcPrefixOK, Bool.and_eq_true, Bool.or_eq_true] at hp
    obtain ⟨⟨⟨hc1, hc2⟩, hc3⟩, hc4⟩ := hp
    have hC1 := upper_letter c1 hc1
    have hC1ne := letter_ne_space _ hC1
    have hC1sp := letter_not_pyspace _ hC1
    have hC2 := upper_letter c2 hc2
    have hC2ne := letter_ne_space _ hC2
    have hc3fix := upper_digit c3 hc3
    have hc3ne := digit_ne_space c3 hc3
    rcases hc4 with hc4 | hc4
    · -- fourth char a letter
      have hC4 := upper_letter c4 hc4
      have hC4ne := letter_ne_space _ hC4
      refine ⟨[pyUpperChar c1, pyUpperChar c2, c3, pyUpperChar c4, ' ', d,
        pyUpperChar x, pyUpperChar y], ?_, ?_⟩
      · have hstr : ((pyStrip raw).map pyUpperChar).filter (fun c => c ≠ ' ') =
            [pyUpperChar c1, pyUpperChar c2, c3, pyUpperChar c4, d, pyUpperChar x,
              pyUpperChar y] := by
          rw [hs]
          rw [List.map_append, List.map_append, List.filter_append, List.filter_append,
            hwnil]
          simp [hc3fix, hdfix, hC1ne, hC2ne, hc3ne, hC4ne, hdne, hXne, hYne]
        rw [pcNormalise_eq_of_validate raw hv, hstr]
        rfl
      · have hstrip : pyStrip ([pyUpperChar c1, pyUpperChar c2, c3, pyUpperChar c4,
            ' ', d, pyUpperChar x, pyUpperChar y] : List Char) =
            [pyUpperChar c1, pyUpperChar c2, c3, pyUpperChar c4, ' ', d,
              pyUpperChar x, pyUpperChar y] := by
          simp [pyStrip, List.dropWhile, hC1sp, hYsp]
        have hv2 : pcValidate ([pyUpperChar c1, pyUpperChar c2, c3, pyUpperChar c4,
            ' ', d, pyUpperChar x, pyUpperChar y] : List Char) = true := by
          unfold pcValidate
          rw [hstrip]
          simp [matchUKPostcode, matchTail, matchAlnumOpt, matchSpOpt, matchEnd,
            hC1, hC2, hc3, hC4, hd, hX, hY, hspS, hspL, hspD]
        have hstr2 : ((pyStrip ([pyUpperChar c1, pyUpperChar c2, c3, pyUpperChar c4,
              ' ', d, pyUpperChar x, pyUpperChar y] : List Char)).map pyUpperChar).filter
              (fun c => c ≠ ' ') =
            [pyUpperChar c1, pyUpperChar c2, c3, pyUpperChar c4, d, pyUpperChar x,
              pyUpperChar y] := by
          rw [hstrip]
          simp [upper_idem, hc3fix, hdfix, hspU, hC1ne, hC2ne, hc3ne, hC4ne, hdne,
            hXne, hYne]
        rw [pcNormalise_eq_of_validate _ hv2, hstr2]
        rfl
    · -- fourth char a digit
      have hc4fix := upper_digit c4 hc4
      have hc4ne := digit_ne_space c4 hc4
      refine ⟨[pyUpperChar c1, pyUpperChar c2, c3, c4, ' ', d, pyUpperChar x,
        pyUpperChar y], ?_, ?_⟩
      · have hstr : ((pyStrip raw).map pyUpperChar).filter (fun c => c ≠ ' ') =
            [pyUpperChar c1, pyUpperChar c2, c3, c4, d, pyUpperChar x,
              pyUpperChar y] := by
          rw [hs]
          rw [List.map_append, List.map_append, List.filter_append, List.filter_append,
            hwnil]
          simp [hc3fix, hc4fix, hdfix, hC1ne, hC2ne, hc3ne, hc4ne, hdne, hXne, hYne]
        rw [pcNormalise_eq_of_validate raw hv, hstr]
        rfl
      · have hstrip : pyStrip ([pyUpperChar c1, pyUpperChar c2, c3, c4, ' ', d,
            pyUpperChar x, pyUpperChar y] : List Char) =
            [pyUpperChar c1, pyUpperChar c2, c3, c4, ' ', d, pyUpperChar x,
              pyUpperChar y] := by
          simp [pyStrip, List.dropWhile, hC1sp, hYsp]
        have hv2 : pcValidate ([pyUpperChar c1, pyUpperChar c2, c3, c4, ' ', d,
            pyUpperChar x, pyUpperChar y] : List Char) = true := by
          unfold pcValidate
          rw [hstrip]
          simp [matchUKPostcode, matchTail, matchAlnumOpt, matchSpOpt, matchEnd,
            hC1, hC2, hc3, hc4, hd, hX, hY, hspS, hspL, hspD]
        have hstr2 : ((pyStrip ([pyUpperChar c1, pyUpperChar c2, c3, c4, ' ', d,
              pyUpperChar x, pyUpperChar y] : List Char)).map pyUpperChar).filter
              (fun c => c ≠ ' ') =
            [pyUpperChar c1, pyUpperChar c2, c3, c4, d, pyUpperChar x,
              pyUpperChar y] := by
          rw [hstrip]
          simp [upper_idem, hc3fix, hc4fix, hdfix, hspU, hC1ne, hC2ne, hc3ne, hc4ne,
            hdne, hXne, hYne]
        rw [pcNormalise_eq_of_validate _ hv2, hstr2]
        rfl
  · exact absurd hp (by simp [pcPrefixOK])

/-- **C4 (amended).** For every input that `validate` accepts and whose stripped form contains no whitespace other than plain spaces, `normalise` is idempotent: `normalise (normalise x) = normalise x`.  (The unamended claim over all validated inputs is refuted by `c4_idempotence_cex`: a tab inside the postcode passes `validate` via `\s` but is not removed by `normalise`, which strips only `' '`, so the first output fails re-validation.) -/
theorem c4_normalise_idempotent (raw : List Char)
    (hv : pcValidate raw = true)
    (hsp : ∀ c ∈ pyStrip raw, isPySpace c = true → c = ' ') :
    (pcNormalise raw).bind pcNormalise = pcNormalise raw := by
  have hm : matchUKPostcode (pyStrip raw) = true := hv
  obtain ⟨p, w, d, x, y, hs, hp, hw, hd, hx, hy⟩ := matchUKPostcode_decomp _ hm
  have hw2 : w = [] ∨ w = [' '] := by
    rcases hw with h | ⟨ws, hws, hsp2⟩
    · exact Or.inl h
    · right
      rw [hws]
      have he : ws = ' ' := hsp ws (by rw [hs, hws]; simp) hsp2
      rw [he]
  obtain ⟨out, h1, h2⟩ := pcNormalise_shape_fix raw p w d x y hv hs hp hw2 hd hx hy
  rw [h1]
  exact h2

/-- Witness for `c4_normalise_idempotent` on the lower-case input `"sw1a 2aa "`. -/
theorem c4_normalise_idempotent_witness :
    (pcValidate ("sw1a 2aa ".toList) = true ∧
      ∀ c ∈ pyStrip ("sw1a 2aa ".toList), isPySpace c = true → c = ' ') ∧
    (pcNormalise ("sw1a 2aa ".toList)).bind pcNormalise =
      pcNormalise ("sw1a 2aa ".toList) :=
  ⟨⟨by decide, by decide⟩, c4_normalise_idempotent _ (by decide) (by decide)⟩

/-! ### C7: similarity properties -/

/-- Membership in `b2j`: a position of a non-popular character. -/
theorem mem_b2j (b : List Char) (c : Char) (j : Nat) :
    j ∈ b2j b c ↔ isPopular b c = false ∧ j < b.length ∧ b.getD j ' ' = c := by
  unfold b2j
  split
  · rename_i h
    simp [h]
  · rename_i h
    rw [Bool.not_eq_true] at h
    simp [List.mem_filter, List.mem_range, h]

/-- The `b2j` position lists are strictly increasing. -/
theorem b2j_pairwise (b : List Char) (c : Char) :
    (b2j b c).Pairwise (fun x y => x < y) := by
  unfold b2j
  split
  · exact List.Pairwise.nil
  · exact List.Pairwise.sublist (List.filter_sublist _) (List.pairwise_lt_range _)

/-- `chainLen` vanishes off the `b2j` support. -/
theorem chainLen_not_mem (a : List Char) (i j : Nat)
    (h : j ∉ b2j a (a.getD i ' ')) : chainLen a i j = 0 := by
  unfold chainLen
  rw [if_neg h]

/-- `chainLen` on row 0 at a supported position is 1. -/
theorem chainLen_zero_mem (a : List Char) (j : Nat)
    (h : j ∈ b2j a (a.getD 0 ' ')) : chainLen a 0 j = 1 := by
  unfold chainLen
  rw [if_pos h]

/-- `chainLen` at column 0 of a later row is 1 when supported. -/
theorem chainLen_succ_zero_mem (a : List Char) (i : Nat)
    (h : 0 ∈ b2j a (a.getD (i + 1) ' ')) : chainLen a (i + 1) 0 = 1 := by
  unfold chainLen
  rw [if_pos h]

/-- `chainLen` recurrence at a supported interior cell. -/
theorem chainLen_succ_succ_mem (a : List Char) (i j : Nat)
    (h : j + 1 ∈ b2j a (a.getD (i + 1) ' ')) :
    chainLen a (i + 1) (j + 1) = chainLen a i j + 1 := by
  conv_lhs => unfold chainLen
  rw [if_pos h]

/-- A chain ending left of the diagonal is no longer than the diagonal chain of its column row. -/
theorem chainLen_le_diag_left (a : List Char) :
    ∀ j i, j ≤ i → chainLen a i j ≤ chainLen a j j := by
  intro j
  induction j with
  | zero =>
    intro i _
    by_cases h : 0 ∈ b2j a (a.getD i ' ')
    · rcases i with _ | i2
      · exact le_refl _
      · rw [chainLen_succ_zero_mem a i2 h]
        have hm := (mem_b2j a (a.getD (i2 + 1) ' ') 0).mp h
        have h0 : 0 ∈ b2j a (a.getD 0 ' ') := by
          rw [mem_b2j]
          refine ⟨?_, hm.2.1, rfl⟩
          rw [hm.2.2]
          exact hm.1
        rw [chainLen_zero_mem a 0 h0]
    · rw [chainLen_not_mem a i 0 h]
      exact Nat.zero_le _
  | succ j2 ih =>
    intro i hle
    rcases i with _ | i2
    · omega
    by_cases h : j2 + 1 ∈ b2j a (a.getD (i2 + 1) ' ')
    · rw [chainLen_succ_succ_mem a i2 j2 h]
      have hm := (mem_b2j a (a.getD (i2 + 1) ' ') (j2 + 1)).mp h
      have h0 : j2 + 1 ∈ b2j a (a.getD (j2 + 1) ' ') := by
        rw [mem_b2j]
        refine ⟨?_, hm.2.1, rfl⟩
        rw [hm.2.2]
        exact hm.1
      rw [chainLen_succ_succ_mem a j2 j2 h0]
      exact Nat.succ_le_succ (ih i2 (by omega))
    · rw [chainLen_not_mem a (i2 + 1) (j2 + 1) h]
      exact Nat.zero_le _

/-- A chain ending right of the diagonal is no longer than the diagonal chain of its row. -/
theorem chainLen_le_diag_right (a : List Char) :
    ∀ i j, i ≤ j → i < a.length → chainLen a i j ≤ chainLen a i i := by
  intro i
  induction i with
  | zero =>
    intro j _ hn
    by_cases h : j ∈ b2j a (a.getD 0 ' ')
    · rw [chainLen_zero_mem a j h]
      have hm := (mem_b2j a (a.getD 0 ' ') j).mp h
      have h0 : 0 ∈ b2j a (a.getD 0 ' ') := by
        rw [mem_b2j]
        exact ⟨hm.1, hn, rfl⟩
      rw [chainLen_zero_mem a 0 h0]
    · rw [chainLen_not_mem a 0 j h]
      exact Nat.zero_le _
  | succ i2 ih =>
    intro j hle hn
    rcases j with _ | j2
    · omega
    by_cases h : j2 + 1 ∈ b2j a (a.getD (i2 + 1) ' ')
    · rw [chainLen_succ_succ_mem a i2 j2 h]
      have hm := (mem_b2j a (a.getD (i2 + 1) ' ') (j2 + 1)).mp h
      have h0 : i2 + 1 ∈ b2j a (a.getD (i2 + 1) ' ') := by
        rw [mem_b2j]
        exact ⟨hm.1, hn, rfl⟩
      rw [chainLen_succ_succ_mem a i2 i2 h0]
      exact Nat.succ_le_succ (ih j2 (by omega) (by omega))
    · rw [chainLen_not_mem a (i2 + 1) (j2 + 1) h]
      exact Nat.zero_le _

/-- Diagonal invariant of the inner loop of `find_longest_match` on `(a, a)` over the full index rectangle: the running best stays on the diagonal, after the row it dominates every diagonal chain up to that row, and the produced dictionary is exactly `chainLen` of the row. -/
theorem flmInner_diag (a : List Char) (i : Nat) (hi : i < a.length) (j2len : Nat → Nat)
    (hk : ∀ j, j ∈ b2j a (a.getD i ' ') →
      (if j = 0 then 0 else j2len (j - 1)) + 1 = chainLen a i j) :
    ∀ (js : List Nat) (acc : Nat → Nat) (best : Nat × Nat × Nat),
      js.Pairwise (fun x y => x < y) →
      (∀ j ∈ js, j ∈ b2j a (a.getD i ' ')) →
      (∀ j, j ∉ js → acc j = chainLen a i j) →
      best.1 = best.2.1 →
      (∀ i2, i2 < i → chainLen a i2 i2 ≤ best.2.2) →
      (i ∉ js → chainLen a i i ≤ best.2.2) →
      (flmInner i 0 a.length j2len js acc best).2.1 =
          (flmInner i 0 a.length j2len js acc best).2.2.1 ∧
        (∀ i2, i2 ≤ i → chainLen a i2 i2 ≤ (flmInner i 0 a.length j2len js acc best).2.2.2) ∧
        (∀ j, (flmInner i 0 a.length j2len js acc best).1 j = chainLen a i j) := by
  intro js
  induction js with
  | nil =>
    intro acc best _ _ hacc hdiag hcov hnotin
    refine ⟨hdiag, ?_, ?_⟩
    · intro i2 hi2
      rcases Nat.lt_or_ge i2 i with h | h
      · exact hcov i2 h
      · have : i2 = i := by omega
        subst this
        exact hnotin (List.not_mem_nil i2)
    · intro j
      exact hacc j (List.not_mem_nil j)
  | cons j js ih =>
    intro acc best hpw hmem hacc hdiag hcov hnotin
    have hjm := hmem j (List.mem_cons_self j js)
    have hjb := (mem_b2j a (a.getD i ' ') j).mp hjm
    have hkj := hk j hjm
    have hpw2 := (List.pairwise_cons.mp hpw).2
    have hgt : ∀ j2 ∈ js, j < j2 := (List.pairwise_cons.mp hpw).1
    simp only [flmInner]
    rw [if_neg (Nat.not_lt_zero j), if_neg (not_le.mpr hjb.2.1)]
    by_cases hlt : best.2.2 < (if j = 0 then 0 else j2len (j - 1)) + 1
    · rw [if_pos hlt]
      rcases Nat.lt_trichotomy j i with hji | hji | hji
      · -- j < i : impossible, the chain is dominated by an earlier diagonal
        exfalso
        rw [hkj] at hlt
        have h1 : chainLen a i j ≤ chainLen a j j := chainLen_le_diag_left a j i (le_of_lt hji)
        have h2 : chainLen a j j ≤ best.2.2 := hcov j hji
        omega
      · -- j = i : the new best is diagonal
        subst hji
        apply ih
        · exact hpw2
        · intro j2 h2
          exact hmem j2 (List.mem_cons_of_mem j h2)
        · intro j2 h2
          by_cases he : j2 = j
          · subst he
            simp only [if_pos rfl]
            exact hkj
          · rw [if_neg he]
            exact hacc j2 (by simp [he, h2])
        · rfl
        · intro i2 hi2
          have h2 := hcov i2 hi2
          dsimp only
          omega
        · intro _
          dsimp only
          rw [← hkj]
      · -- i < j : impossible, dominated by the diagonal entry of this row
        exfalso
        rw [hkj] at hlt
        have hnotin2 : i ∉ j :: js := by
          intro hcontra
          rcases List.mem_cons.mp hcontra with h | h
          · omega
          · exact absurd (hgt i h) (by omega)
        have h1 : chainLen a i j ≤ chainLen a i i :=
          chainLen_le_diag_right a i j (le_of_lt hji) hi
        have h2 : chainLen a i i ≤ best.2.2 := hnotin hnotin2
        omega
    · rw [if_neg hlt]
      apply ih
      · exact hpw2
      · intro j2 h2
        exact hmem j2 (List.mem_cons_of_mem j h2)
      · intro j2 h2
        by_cases he : j2 = j
        · subst he
          simp only [if_pos rfl]
          exact hkj
        · rw [if_neg he]
          exact hacc j2 (by simp [he, h2])
      · exact hdiag
      · exact hcov
      · intro hni
        by_cases he : i = j
        · subst he
          rw [← hkj]
          omega
        · exact hnotin (by simp [he, hni])

/-- The main loop of `find_longest_match` on `(a, a)` keeps the best block on the diagonal. -/
theorem flmOuter_diag (a : List Char) :
    ∀ (cnt start : Nat) (j2len : Nat → Nat) (best : Nat × Nat × Nat),
      start + cnt ≤ a.length →
      (∀ j, j ∈ b2j a (a.getD start ' ') →
        (if j = 0 then 0 else j2len (j - 1)) + 1 = chainLen a start j) →
      best.1 = best.2.1 →
      (∀ i2, i2 < start → chainLen a i2 i2 ≤ best.2.2) →
      (flmOuter a a 0 a.length (List.range' start cnt) j2len best).1 =
        (flmOuter a a 0 a.length (List.range' start cnt) j2len best).2.1 := by
  intro cnt
  induction cnt with
  | zero =>
    intro start j2len best _ _ hdiag _
    simpa only [List.range', flmOuter] using hdiag
  | succ cnt2 ih =>
    intro start j2len best hlen hk hdiag hcov
    simp only [List.range', flmOuter]
    have hstart : start < a.length := by omega
    have hstep := flmInner_diag a start hstart j2len hk
      (b2j a (a.getD start ' ')) (fun _ => 0) best
      (b2j_pairwise a _)
      (fun _ h => h)
      (fun j h => (chainLen_not_mem a start j h).symm)
      hdiag hcov
      (fun h => by
        rw [chainLen_not_mem a start start h]
        exact Nat.zero_le _)
    refine ih (start + 1) _ _ (by omega) ?_ hstep.1 ?_
    · intro j hj
      rcases j with _ | j2
      · rw [chainLen_succ_zero_mem a start hj]
        simp
      · rw [if_neg (Nat.succ_ne_zero j2), Nat.succ_sub_one, hstep.2.2 j2,
          chainLen_succ_succ_mem a start j2 hj]
    · intro i2 hi2
      exact hstep.2.1 i2 (by omega)

/-- On `(a, a)` the backward extension loop drags a diagonal best all the way to the origin. -/
theorem flmExtLo_self (a : List Char) :
    ∀ (m bs : Nat), flmExtLo a a 0 0 m m bs = (0, 0, m + bs) := by
  intro m
  induction m with
  | zero =>
    intro bs
    simp [flmExtLo]
  | succ m2 ih =>
    intro bs
    show flmExtLo a a 0 0 (m2 + 1) (m2 + 1) bs = _
    rw [flmExtLo]
    rw [if_pos ⟨Nat.succ_pos m2, Nat.succ_pos m2, by rw [Nat.succ_sub_one]⟩]
    rw [Nat.succ_sub_one, ih (bs + 1)]
    have : m2 + (bs + 1) = m2 + 1 + bs := by omega
    rw [this]

/-- On `(a, a)` the forward extension loop extends a diagonal best at the origin to the full length. -/
theorem flmExtHiAux_self (a : List Char) :
    ∀ (fuel sz : Nat), fuel + sz = a.length →
      flmExtHiAux a a a.length a.length 0 0 fuel sz = (0, 0, a.length) := by
  intro fuel
  induction fuel with
  | zero =>
    intro sz h
    rw [flmExtHiAux]
    have he : sz = a.length := by omega
    rw [he]
  | succ f2 ih =>
    intro sz h
    rw [flmExtHiAux]
    rw [if_pos ⟨by omega, by omega, rfl⟩]
    exact ih (sz + 1) (by omega)

/-- `find_longest_match` of a string against itself over the full range returns the whole string as one block. -/
theorem flm_self (a : List Char) :
    find_longest_match a a 0 a.length 0 a.length = (0, 0, a.length) := by
  unfold find_longest_match
  rw [Nat.sub_zero]
  have hdiag : (flmOuter a a 0 a.length (List.range' 0 a.length) (fun _ => 0)
        (0, 0, 0)).1 =
      (flmOuter a a 0 a.length (List.range' 0 a.length) (fun _ => 0) (0, 0, 0)).2.1 := by
    refine flmOuter_diag a a.length 0 (fun _ => 0) (0, 0, 0) (by omega) ?_ rfl
      (fun i2 h => absurd h (Nat.not_lt_zero i2))
    intro j hj
    rw [chainLen_zero_mem a j hj]
    split <;> rfl
  have hb : (flmOuter a a 0 a.length (List.range' 0 a.length) (fun _ => 0)
        (0, 0, 0)).1 +
      (flmOuter a a 0 a.length (List.range' 0 a.length) (fun _ => 0) (0, 0, 0)).2.2 ≤
        a.length := by
    rcases flmOuter_bound a a 0 0 a.length a.length 0 (fun _ => 0) (0, 0, 0)
        (le_refl 0) (by intro j; dsimp only; omega) (Or.inl rfl) with h | h
    · rw [h]
      exact Nat.zero_le _
    · omega
  show flmExtHi a a a.length a.length
      (flmExtLo a a 0 0
        (flmOuter a a 0 a.length (List.range' 0 a.length) (fun _ => 0) (0, 0, 0)).1
        (flmOuter a a 0 a.length (List.range' 0 a.length) (fun _ => 0) (0, 0, 0)).2.1
        (flmOuter a a 0 a.length (List.range' 0 a.length) (fun _ => 0) (0, 0, 0)).2.2) =
      (0, 0, a.length)
  rw [← hdiag, flmExtLo_self]
  show flmExtHiAux a a a.length a.length 0 0
      (a.length -
        (0 + ((flmOuter a a 0 a.length (List.range' 0 a.length) (fun _ => 0)
          (0, 0, 0)).1 +
        (flmOuter a a 0 a.length (List.range' 0 a.length) (fun _ => 0) (0, 0, 0)).2.2)))
      ((flmOuter a a 0 a.length (List.range' 0 a.length) (fun _ => 0) (0, 0, 0)).1 +
        (flmOuter a a 0 a.length (List.range' 0 a.length) (fun _ => 0) (0, 0, 0)).2.2) =
      (0, 0, a.length)
  rw [Nat.zero_add]
  exact flmExtHiAux_self a _ _ (by omega)

/-- `SequenceMatcher.ratio` of a string with itself is 1 (including the empty string, via the `T = 0` branch). -/
theorem ratio_self (s : List Char) : ratio s s = 1 := by
  by_cases hn : s.length = 0
  · unfold ratio
    rw [if_neg (by omega)]
  · have hflm := flm_self s
    obtain ⟨m, hm⟩ : ∃ m, 2 * (s.length + s.length) = m + 1 := ⟨2 * (s.length + s.length) - 1, by omega⟩
    have h1 : gmbLoop s s (2 * (s.length + s.length) + 1)
        [(0, s.length, 0, s.length)] [] = [(0, 0, s.length)] := by
      simp only [gmbLoop, hflm]
      rw [if_pos hn, if_neg (by omega), if_neg (by omega), hm]
      simp only [gmbLoop]
    have hgmb : get_matching_blocks s s =
        [(0, 0, s.length), (s.length, s.length, 0)] := by
      unfold get_matching_blocks
      rw [h1]
      show mergeAdjacent (0, 0, 0) [(0, 0, s.length)] ++ [(s.length, s.length, 0)] = _
      rw [mergeAdjacent, if_pos ⟨rfl, rfl⟩, mergeAdjacent, if_pos (by omega)]
      rw [Nat.zero_add]
      rfl
    unfold ratio
    rw [if_pos (by omega), hgmb]
    show mkRat (2 * (s.length + (0 + 0))) (s.length + s.length) = 1
    rw [Rat.mkRat_eq_div]
    rw [div_eq_one_iff_eq (by exact_mod_cast (by omega : ¬(s.length + s.length = 0)))]
    push_cast
    ring

/-- **C7.** `similarity x x = 1` for every non-empty `x` (it in fact holds for every `x`); every similarity score lies in `[0, 1]`; and `similarity` is invariant, in either argument, under any rewriting of the argument that preserves its uppercased, comma-stripped character sequence - in particular under case changes and comma insertion or removal. -/
theorem c7_similarity_properties :
    (∀ x : List Char, x ≠ [] → similarity x x = 1) ∧
    (∀ x y : List Char, 0 ≤ similarity x y ∧ similarity x y ≤ 1) ∧
    (∀ x x2 y : List Char,
      (x2.map pyUpperChar).filter (fun c => c ≠ ',') =
        (x.map pyUpperChar).filter (fun c => c ≠ ',') →
      similarity x2 y = similarity x y ∧ similarity y x2 = similarity y x) := by
  have hnorm : ∀ x x2 : List Char,
      (x2.map pyUpperChar).filter (fun c => c ≠ ',') =
        (x.map pyUpperChar).filter (fun c => c ≠ ',') →
      addrNormalise x2 = addrNormalise x := by
    intro x x2 h
    unfold addrNormalise
    rw [h]
  refine ⟨?_, ?_, ?_⟩
  · intro x _
    exact ratio_self (addrNormalise x)
  · intro x y
    exact ⟨similarity_nonneg x y, similarity_le_one x y⟩
  · intro x x2 y h
    constructor <;> unfold similarity <;> rw [hnorm x x2 h]

/-- Witness for `c7_similarity_properties` on concrete inputs: self-similarity of a non-empty string, bounds, and case/comma invariance. -/
theorem c7_similarity_properties_witness :
    similarity ("10, Downing St".toList) ("10, Downing St".toList) = 1 ∧
    (0 ≤ similarity ("10, Downing St".toList) ("SW1A".toList) ∧
      similarity ("10, Downing St".toList) ("SW1A".toList) ≤ 1) ∧
    similarity ("10 downing st".toList) ("SW1A".toList) =
      similarity ("10, DOWNING ST".toList) ("SW1A".toList) :=
  ⟨c7_similarity_properties.1 _ (by decide),
   c7_similarity_properties.2.1 _ _,
   (c7_similarity_properties.2.2 ("10, DOWNING ST".toList) ("10 downing st".toList)
      ("SW1A".toList) (by decide)).1⟩
